import Mathlib

/-!
Verification of the lmdb-tui data-access core.

This file is a shallow embedding of the core of the `lmdb-tui` repository
(an interactive explorer/editor for LMDB environments) together with proofs
about it.  The embedding covers:

* `src/db/kv.rs`        — typed put/get/delete against a named database,
* `src/db/env.rs`       — paginated entry listing with `"(unnamed)"` resolution,
* `src/db/undo.rs`      — the undo/redo stack (`UndoStack`),
* `src/db/query.rs`     — the query parser and the counting/paginating scans,
* `src/commands.rs`     — mutators recording undo information, and the
                          base64 JSON/CSV import/export codec,
* `src/db/io.rs`        — the alternative CSV exporter that writes values with
                          `String::from_utf8_lossy`.

Modelling conventions:

* An LMDB environment is modelled as one anonymous (root) space plus an
  association list of named spaces.  Each space is an association list of
  `(key, value)` pairs kept sorted by key, which is how LMDB iterates them.
  Keys are `String`s (the code uses the `Str` codec, so keys are UTF-8 text);
  values are byte lists (`List Nat`, each entry < 256).
* Rust's `&str` comparison is byte-lexicographic; on valid UTF-8 this agrees
  with lexicographic comparison of the decoded code-point sequence, which is
  what `charsLt` below computes on `String.data`.
* Fallible Rust functions returning `anyhow::Result` are modelled with
  `Except String`.  Storage-level I/O errors have no counterpart in the pure
  model; the only modelled error sources are the ones the code itself
  introduces (`ok_or_else(...)` on a missing database, parse failures, ...).
* External crates (`serde_json`, `csv`, `regex`, `jsonpath_lib`, plugin
  decoders) are not part of this repository.  The JSON/CSV framing is treated
  as identity transport of the record list the code constructs; a compiled
  regex is modelled as an abstract key predicate and the jsonpath-on-decoded
  value test as an abstract value predicate.  The `base64` STANDARD engine and
  `String::from_utf8_lossy`, whose behaviour the round-trip claims hinge on,
  are modelled in full.
-/

namespace LmdbTui

/-- Byte-level lexicographic order on code-point sequences: the model of
Rust's `&str` `<`/`>` comparisons on keys. -/
def charsLt : List Char → List Char → Bool
  | [], [] => false
  | [], _ :: _ => true
  | _ :: _, [] => false
  | a :: as, b :: bs => if a < b then true else if b < a then false else charsLt as bs

/-- Key comparison on strings (model of `key1 < key2` on `&str`). -/
def strLt (a b : String) : Bool := charsLt a.data b.data

/-- Model of `key.starts_with(p)` on `&str`. -/
def strStarts (p k : String) : Bool := p.data.isPrefixOf k.data

/-- Values are raw byte sequences. -/
abbrev Bytes := List Nat

/-- A space (LMDB sub-database): entries sorted by key, duplicate-free. -/
abbrev Space := List (String × Bytes)

/-- Sortedness invariant LMDB maintains for a space. -/
def SpaceWF (sp : Space) : Prop := sp.Pairwise (fun a b => strLt a.1 b.1 = true)

/-- Lookup in a space (model of `db.get`). -/
def spaceGet : Space → String → Option Bytes
  | [], _ => none
  | (k1, v1) :: rest, k => if k = k1 then some v1 else spaceGet rest k

/-- Sorted insert-or-replace (model of `db.put`: a put to an existing key
replaces the value). -/
def spacePut : Space → String → Bytes → Space
  | [], k, v => [(k, v)]
  | (k1, v1) :: rest, k, v =>
    if strLt k k1 then (k, v) :: (k1, v1) :: rest
    else if k = k1 then (k, v) :: rest
    else (k1, v1) :: spacePut rest k v

/-- Key removal (model of `db.delete`; deleting an absent key is a no-op). -/
def spaceDel : Space → String → Space
  | [], _ => []
  | (k1, v1) :: rest, k => if k = k1 then rest else (k1, v1) :: spaceDel rest k

/-- The environment: the anonymous root space plus the catalog of named
spaces.  `heed::Env::create_database` appends a new name to the catalog. -/
structure Env where
  anon : Space
  named : List (String × Space)
deriving DecidableEq, Repr

/-- Catalog lookup by database name. -/
def envGetDb : List (String × Space) → String → Option Space
  | [], _ => none
  | (n, sp) :: rest, d => if d = n then some sp else envGetDb rest d

/-- Catalog update: replace the binding of an existing name in place, or
append a fresh one. -/
def envSetDb : List (String × Space) → String → Space → List (String × Space)
  | [], n, sp => [(n, sp)]
  | (n1, sp1) :: rest, n, sp =>
    if n = n1 then (n, sp) :: rest else (n1, sp1) :: envSetDb rest n sp

/-- Environment well-formedness: every space is sorted and catalog names are
unique.  LMDB maintains both. -/
def EnvWF (e : Env) : Prop :=
  SpaceWF e.anon ∧ (∀ p ∈ e.named, SpaceWF p.2) ∧ (e.named.map Prod.fst).Nodup

instance (sp : Space) : Decidable (SpaceWF sp) := by unfold SpaceWF; infer_instance

instance (e : Env) : Decidable (EnvWF e) := by unfold EnvWF SpaceWF; infer_instance

/-- Model of `kv::put` (`src/db/kv.rs:10-14`).  Note that the source passes
`Some(db_name)` to `create_database` unconditionally — there is no special
treatment of the reserved name `"(unnamed)"` on the write path. -/
def kv.put (e : Env) (dbName k : String) (v : Bytes) : Env :=
  match envGetDb e.named dbName with
  | some sp => { e with named := envSetDb e.named dbName (spacePut sp k v) }
  | none => { e with named := e.named ++ [(dbName, spacePut [] k v)] }

/-- Model of `kv::get` (`src/db/kv.rs:17-23`): a missing database yields
`Ok(None)`, not an error. -/
def kv.get (e : Env) (dbName k : String) : Except String (Option Bytes) :=
  match envGetDb e.named dbName with
  | none => .ok none
  | some sp => .ok (spaceGet sp k)

/-- Model of `kv::delete` (`src/db/kv.rs:26-32`): a missing database is an
error (`ok_or_else`), deletion of an absent key in an existing database is a
no-op. -/
def kv.delete (e : Env) (dbName k : String) : Except String Env :=
  match envGetDb e.named dbName with
  | none => .error "database not found"
  | some sp => .ok { e with named := envSetDb e.named dbName (spaceDel sp k) }

/-- The pure value read by `kv::get` (specification view of `kv.get`). -/
def getVal (e : Env) (dbName k : String) : Option Bytes :=
  match envGetDb e.named dbName with
  | none => none
  | some sp => spaceGet sp k

/-- Model of `open_database` in `src/db/query.rs:139-147`: the read path
resolves the reserved name `"(unnamed)"` to the anonymous root space. -/
def openDatabase (e : Env) (dbName : String) : Except String Space :=
  if dbName = "(unnamed)" then .ok e.anon
  else
    match envGetDb e.named dbName with
    | some sp => .ok sp
    | none => .error "database not found"

/-- Loop of `list_entries_paginated` (`src/db/env.rs:55-93`): skip the first
`offset` entries, then collect until `items.len() >= limit`. -/
def lepLoop (offset limit : Nat) : Nat → List (String × Bytes) → List (String × Bytes) →
    List (String × Bytes)
  | _, items, [] => items
  | skipped, items, (k, v) :: rest =>
    if skipped < offset then lepLoop offset limit (skipped + 1) items rest
    else if limit ≤ items.length then items
    else lepLoop offset limit skipped (items ++ [(k, v)]) rest

/-- Model of `list_entries_paginated` (`src/db/env.rs:55-93`), which also
resolves `"(unnamed)"` to the root space on the read side. -/
def list_entries_paginated (e : Env) (dbName : String) (offset limit : Nat) :
    Except String (List (String × Bytes)) :=
  if dbName = "(unnamed)" then .ok (lepLoop offset limit 0 [] e.anon)
  else
    match envGetDb e.named dbName with
    | some sp => .ok (lepLoop offset limit 0 [] sp)
    | none => .error "database not found"

/-- Model of `list_entries` (`src/db/env.rs:50-52`). -/
def list_entries (e : Env) (dbName : String) (limit : Nat) :
    Except String (List (String × Bytes)) :=
  list_entries_paginated e dbName 0 limit

/-- `usize::MAX` on a 64-bit target, used by the exporters as an unbounded
limit. -/
def usizeMax : Nat := 2 ^ 64 - 1

/-- Undo record (`Op` in `src/db/undo.rs:8-21`). -/
inductive Op where
  | put (db key : String) (prev : Option Bytes) (new : Bytes)
  | del (db key : String) (prev : Option Bytes)
deriving DecidableEq, Repr

/-- The undo/redo stack (`UndoStack` in `src/db/undo.rs:24-27`). -/
structure UndoStack where
  ops : List Op
  pos : Nat
deriving DecidableEq, Repr

/-- `UndoStack::push` (`src/db/undo.rs:57-63`): truncate the redoable tail
when `pos < len`, append, and move the cursor to the end. -/
def UndoStack.push (s : UndoStack) (op : Op) : UndoStack :=
  let ops0 := if s.pos < s.ops.length then s.ops.take s.pos else s.ops
  let ops1 := ops0 ++ [op]
  { ops := ops1, pos := ops1.length }

/-- `UndoStack::can_undo` (`src/db/undo.rs:38-40`). -/
def UndoStack.canUndo (s : UndoStack) : Bool := 0 < s.pos

/-- `UndoStack::can_redo` (`src/db/undo.rs:43-45`). -/
def UndoStack.canRedo (s : UndoStack) : Bool := s.pos < s.ops.length

/-- The inverse applied by `UndoStack::undo` (`src/db/undo.rs:71-81`). -/
def applyInverse (e : Env) : Op → Except String Env
  | .put db key prev _ =>
    match prev with
    | some v => .ok (kv.put e db key v)
    | none => kv.delete e db key
  | .del db key prev =>
    match prev with
    | some v => .ok (kv.put e db key v)
    | none => .ok e

/-- The forward replay applied by `UndoStack::redo` (`src/db/undo.rs:91-94`). -/
def applyForward (e : Env) : Op → Except String Env
  | .put db key _ new => .ok (kv.put e db key new)
  | .del db key _ => kv.delete e db key

/-- `UndoStack::undo` (`src/db/undo.rs:65-83`).  The mutation of `self.pos`
(`self.pos -= 1`) happens before the inverse is applied, so the returned
stack carries the decremented cursor even when the inverse fails; an
out-of-range index (impossible under the cursor invariant) is the spot where
the Rust code would panic. -/
def UndoStack.undo (s : UndoStack) (e : Env) : UndoStack × Except String (Env × Bool) :=
  if s.pos = 0 then (s, .ok (e, false))
  else
    let p := s.pos - 1
    let s1 : UndoStack := { s with pos := p }
    match s.ops.get? p with
    | none => (s1, .error "index out of range")
    | some op =>
      match applyInverse e op with
      | .ok e1 => (s1, .ok (e1, true))
      | .error m => (s1, .error m)

/-- `UndoStack::redo` (`src/db/undo.rs:85-96`).  `self.pos += 1` happens
before the operation is replayed.  The Rust code indexes `self.ops[self.pos]`
before incrementing; an out-of-range index there is a panic, modelled as an
error with the stack unchanged. -/
def UndoStack.redo (s : UndoStack) (e : Env) : UndoStack × Except String (Env × Bool) :=
  if s.pos = s.ops.length then (s, .ok (e, false))
  else
    match s.ops.get? s.pos with
    | none => (s, .error "index out of range")
    | some op =>
      let s1 : UndoStack := { s with pos := s.pos + 1 }
      match applyForward e op with
      | .ok e1 => (s1, .ok (e1, true))
      | .error m => (s1, .error m)

/-- Mutator `commands::put` (`src/commands.rs:15-32`): capture the previous
value, write, and record an undo `Put` carrying it. -/
def commands.put (e : Env) (s : UndoStack) (db key : String) (v : Bytes) :
    Except String (Env × UndoStack) := do
  let prev ← kv.get e db key
  let e1 := kv.put e db key v
  .ok (e1, s.push (.put db key prev v))

/-- Mutator `commands::delete` (`src/commands.rs:40-55`): capture the previous
value, delete, and record an undo `Delete` carrying it. -/
def commands.delete (e : Env) (s : UndoStack) (db key : String) :
    Except String (Env × UndoStack) := do
  let prev ← kv.get e db key
  let e1 ← kv.delete e db key
  .ok (e1, s.push (.del db key prev))

/-- Standard base64 alphabet (`base64::engine::general_purpose::STANDARD`). -/
def b64Alpha (n : Nat) : Char :=
  if n < 26 then Char.ofNat (65 + n)
  else if n < 52 then Char.ofNat (97 + (n - 26))
  else if n < 62 then Char.ofNat (48 + (n - 52))
  else if n = 62 then '+'
  else '/'

/-- Inverse alphabet lookup of the STANDARD base64 engine. -/
def b64Val (c : Char) : Option Nat :=
  if 'A' ≤ c ∧ c ≤ 'Z' then some (c.toNat - 65)
  else if 'a' ≤ c ∧ c ≤ 'z' then some (c.toNat - 97 + 26)
  else if '0' ≤ c ∧ c ≤ '9' then some (c.toNat - 48 + 52)
  else if c = '+' then some 62
  else if c = '/' then some 63
  else none

/-- Base64 encoding with `=` padding, three input bytes per four output
characters (RFC 4648, the STANDARD engine's encoding). -/
def b64Encode : List Nat → List Char
  | [] => []
  | [a] => [b64Alpha (a / 4), b64Alpha (a % 4 * 16), '=', '=']
  | [a, b] => [b64Alpha (a / 4), b64Alpha (a % 4 * 16 + b / 16), b64Alpha (b % 16 * 4), '=']
  | a :: b :: c :: rest =>
    b64Alpha (a / 4) :: b64Alpha (a % 4 * 16 + b / 16) :: b64Alpha (b % 16 * 4 + c / 64) ::
      b64Alpha (c % 64) :: b64Encode rest

/-- Base64 decoding of the STANDARD engine: four-character chunks, padding
only in the final chunk, non-canonical trailing bits rejected. -/
def b64Decode : List Char → Except String (List Nat)
  | [] => .ok []
  | c1 :: c2 :: c3 :: c4 :: rest =>
    match b64Val c1, b64Val c2 with
    | some w, some x =>
      if c3 = '=' then
        if c4 = '=' ∧ rest = [] then
          if x % 16 = 0 then .ok [w * 4 + x / 16] else .error "invalid trailing bits"
        else .error "invalid padding"
      else
        match b64Val c3 with
        | some y =>
          if c4 = '=' then
            if rest = [] then
              if y % 4 = 0 then .ok [w * 4 + x / 16, x % 16 * 16 + y / 4]
              else .error "invalid trailing bits"
            else .error "invalid padding"
          else
            match b64Val c4 with
            | some z => do
              let tail ← b64Decode rest
              .ok ((w * 4 + x / 16) :: (x % 16 * 16 + y / 4) :: (y % 4 * 64 + z) :: tail)
            | none => .error "invalid character"
        | none => .error "invalid character"
    | _, _ => .error "invalid character"
  | _ => .error "invalid length"

/-- Model of `commands::export_json` (`src/commands.rs:64-75`): list all
entries (limit `usize::MAX`) and emit `ExportItem { key, value }` records
whose value field is the base64 string of the raw bytes.  The `serde_json`
framing of the record list is identity transport here. -/
def commands.export_json (e : Env) (db : String) : Except String (List (String × String)) := do
  let entries ← list_entries e db usizeMax
  .ok (entries.map (fun kv => (kv.1, String.mk (b64Encode kv.2))))

/-- Model of `commands::import_json` (`src/commands.rs:78-98`): for each
record, base64-decode the value (a decode failure aborts the import), capture
`prev`, `kv::put`, and push an undo record. -/
def commands.import_json (e : Env) (s : UndoStack) (db : String) :
    List (String × String) → Except String (Env × UndoStack)
  | [] => .ok (e, s)
  | (k, vs) :: rest => do
    let v ← b64Decode vs.data
    let prev ← kv.get e db k
    let e1 := kv.put e db k v
    commands.import_json e1 (s.push (.put db k prev v)) db rest

/-- Model of `commands::export_csv` (`src/commands.rs:101-110`): a header
record then `key, base64(value)` rows; the `csv` framing is identity
transport of the rows. -/
def commands.export_csv (e : Env) (db : String) : Except String (List (String × String)) := do
  let entries ← list_entries e db usizeMax
  .ok (entries.map (fun kv => (kv.1, String.mk (b64Encode kv.2))))

/-- One step of lossy UTF-8 decoding: given a leading byte and the bytes
after it, produce the decoded code point (or U+FFFD = 65533) and how many
further bytes were consumed.  An invalid sequence consumes its maximal valid
subpart, per `String::from_utf8_lossy`. -/
def utf8Step (b : Nat) (rest : List Nat) : Nat × Nat :=
  if b < 128 then (b, 0)
  else if 194 ≤ b ∧ b ≤ 223 then
    match rest with
    | b2 :: _ =>
      if 128 ≤ b2 ∧ b2 ≤ 191 then ((b - 192) * 64 + (b2 - 128), 1) else (65533, 0)
    | [] => (65533, 0)
  else if 224 ≤ b ∧ b ≤ 239 then
    match rest with
    | b2 :: rest2 =>
      if (if b = 224 then 160 ≤ b2 ∧ b2 ≤ 191
          else if b = 237 then 128 ≤ b2 ∧ b2 ≤ 159
          else 128 ≤ b2 ∧ b2 ≤ 191) then
        match rest2 with
        | b3 :: _ =>
          if 128 ≤ b3 ∧ b3 ≤ 191 then
            ((b - 224) * 4096 + (b2 - 128) * 64 + (b3 - 128), 2)
          else (65533, 1)
        | [] => (65533, 1)
      else (65533, 0)
    | [] => (65533, 0)
  else if 240 ≤ b ∧ b ≤ 244 then
    match rest with
    | b2 :: rest2 =>
      if (if b = 240 then 144 ≤ b2 ∧ b2 ≤ 191
          else if b = 244 then 128 ≤ b2 ∧ b2 ≤ 143
          else 128 ≤ b2 ∧ b2 ≤ 191) then
        match rest2 with
        | b3 :: rest3 =>
          if 128 ≤ b3 ∧ b3 ≤ 191 then
            match rest3 with
            | b4 :: _ =>
              if 128 ≤ b4 ∧ b4 ≤ 191 then
                ((b - 240) * 262144 + (b2 - 128) * 4096 + (b3 - 128) * 64 + (b4 - 128), 3)
              else (65533, 2)
            | [] => (65533, 2)
          else (65533, 1)
        | [] => (65533, 1)
      else (65533, 0)
    | [] => (65533, 0)
  else (65533, 0)

/-- Lossy UTF-8 decoding of a byte sequence to its code points, replacing
each maximal invalid subpart by U+FFFD (65533): the behaviour of
`String::from_utf8_lossy`. -/
def utf8Lossy : List Nat → List Nat
  | [] => []
  | b :: rest =>
    let s := utf8Step b rest
    s.1 :: utf8Lossy (rest.drop s.2)
termination_by l => l.length
decreasing_by
  simp only [List.length_cons, List.length_drop]
  omega

/-- UTF-8 encoding of one code point (model of `str::as_bytes` applied to a
decoded string, per code point). -/
def utf8EncodeChar (c : Nat) : List Nat :=
  if c < 128 then [c]
  else if c < 2048 then [192 + c / 64, 128 + c % 64]
  else if c < 65536 then [224 + c / 4096, 128 + c / 64 % 64, 128 + c % 64]
  else [240 + c / 262144, 128 + c / 4096 % 64, 128 + c / 64 % 64, 128 + c % 64]

/-- UTF-8 encoding of a code-point sequence. -/
def utf8Encode (cs : List Nat) : List Nat := (cs.map utf8EncodeChar).flatten

/-- Model of `io::export_csv` (`src/db/io.rs:55-73`): rows of
`key, from_utf8_lossy(value)` — the value column is a lossy text rendering,
not a byte-preserving encoding.  A row's value is represented as the
code-point sequence of the written field. -/
def dbio.export_csv (e : Env) (db : String) : Except String (List (String × List Nat)) :=
  match envGetDb e.named db with
  | none => .error "database not found"
  | some sp => .ok (sp.map (fun kv => (kv.1, utf8Lossy kv.2)))

/-- Row loop of `io::import_csv` (`src/db/io.rs:103-110`): each row is applied
as `db.put(key, value.as_bytes())`, counting rows. -/
def dbio.importLoop (e : Env) (db : String) (count : Nat) :
    List (String × List Nat) → Env × Nat
  | [] => (e, count)
  | (k, v) :: rest => dbio.importLoop (kv.put e db k (utf8Encode v)) db (count + 1) rest

/-- Model of `io::import_csv` (`src/db/io.rs:93-114`): the target database
must already exist (`ok_or_else`), then rows are applied in order. -/
def dbio.import_csv (e : Env) (db : String) (records : List (String × List Nat)) :
    Except String (Env × Nat) :=
  match envGetDb e.named db with
  | none => .error "database not found"
  | some _ => .ok (dbio.importLoop e db 0 records)

/-- Query mode (`Mode` in `src/db/query.rs:29-35`).  A compiled regex is
modelled as the key predicate it denotes; the jsonpath variant keeps the raw
path (both scan entry points build the same decoded-value test from it). -/
inductive Mode where
  | pfx (p : String)
  | range (lo hi : String)
  | regexM (isMatch : String → Bool)
  | jsonPath (path : String)

/-- Parse errors of the query parser (`anyhow` messages in
`src/db/query.rs:47-73`): `"empty query"`, `"invalid range query"`, and a
regex compilation failure. -/
inductive QError where
  | emptyQuery
  | invalidRange
  | badRegex
deriving DecidableEq, Repr

/-- Whitespace test used by `str::trim` / `str::split_whitespace`: Rust's
`char::is_whitespace`, i.e. the Unicode `White_Space` property —
U+0009..U+000D, U+0020, U+0085, U+00A0, U+1680, U+2000..U+200A, U+2028,
U+2029, U+202F, U+205F and U+3000. -/
def isWsChar (c : Char) : Bool :=
  let n := c.toNat
  (0x09 ≤ n && n ≤ 0x0D) || n = 0x20 || n = 0x85 || n = 0xA0 || n = 0x1680 ||
  (0x2000 ≤ n && n ≤ 0x200A) || n = 0x2028 || n = 0x2029 || n = 0x202F ||
  n = 0x205F || n = 0x3000

/-- Model of `str::trim`. -/
def trimChars (s : List Char) : List Char :=
  ((s.dropWhile isWsChar).reverse.dropWhile isWsChar).reverse

/-- Model of `str::strip_prefix` on character lists. -/
def stripPrefixChars : List Char → List Char → Option (List Char)
  | [], s => some s
  | _ :: _, [] => none
  | p :: ps, c :: cs => if c = p then stripPrefixChars ps cs else none

/-- Model of `str::split_once("..")`: split at the first occurrence of two
consecutive dots. -/
def splitOnceDots : List Char → Option (List Char × List Char)
  | [] => none
  | c :: rest =>
    if c = '.' then
      match rest with
      | c2 :: rest2 =>
        if c2 = '.' then some ([], rest2)
        else
          match splitOnceDots rest with
          | some pr => some (c :: pr.1, pr.2)
          | none => none
      | [] => none
    else
      match splitOnceDots rest with
      | some pr => some (c :: pr.1, pr.2)
      | none => none

/-- Accumulator loop for `split_whitespace`: `acc` is the reversed current
word. -/
def splitWsAux (acc : List Char) : List Char → List (List Char)
  | [] => if acc = [] then [] else [acc.reverse]
  | c :: rest =>
    if isWsChar c then
      if acc = [] then splitWsAux [] rest
      else acc.reverse :: splitWsAux [] rest
    else splitWsAux (c :: acc) rest

/-- Model of `str::split_whitespace`: the maximal non-whitespace runs. -/
def splitWsChars (s : List Char) : List (List Char) := splitWsAux [] s

/-- Model of `parse_query` (`src/db/query.rs:47-73`).  `rx` stands for
`Regex::new`: it returns the key predicate of a pattern that compiles, and
`none` for one that does not. -/
def parse_query (rx : String → Option (String → Bool)) (input : String) :
    Except QError Mode :=
  let trimmed := trimChars input.data
  if trimmed = [] then .error .emptyQuery
  else
    match stripPrefixChars "prefix ".data trimmed with
    | some rest => .ok (.pfx (String.mk rest))
    | none =>
      match stripPrefixChars "range ".data trimmed with
      | some rest =>
        (match splitOnceDots rest with
         | some pr => .ok (.range (String.mk (trimChars pr.1)) (String.mk (trimChars pr.2)))
         | none =>
           match splitWsChars rest with
           | a :: b :: _ => .ok (.range (String.mk a) (String.mk b))
           | _ => .error .invalidRange)
      | none =>
        match stripPrefixChars "regex ".data trimmed with
        | some rest =>
          (match rx (String.mk rest) with
           | some f => .ok (.regexM f)
           | none => .error .badRegex)
        | none =>
          match stripPrefixChars "jsonpath ".data trimmed with
          | some rest => .ok (.jsonPath (String.mk rest))
          | none => .ok (.pfx (String.mk trimmed))

/-- Loop of `count_prefix_matches` (`src/db/query.rs:149-163`), instrumented:
the second component is the list of keys the iteration examined, in order. -/
def count_prefix_matches (p : String) : Space → Nat × List String
  | [] => (0, [])
  | (k, _) :: rest =>
    if strStarts p k then
      let r := count_prefix_matches p rest
      (r.1 + 1, k :: r.2)
    else if strLt p k then (0, [k])
    else
      let r := count_prefix_matches p rest
      (r.1, k :: r.2)

/-- Loop of `count_range_matches` (`src/db/query.rs:165-184`), instrumented
with the examined keys.  `key >= start` is `!(key < start)` under the total
byte order. -/
def count_range_matches (lo hi : String) : Space → Nat × List String
  | [] => (0, [])
  | (k, _) :: rest =>
    if !strLt k lo && strLt k hi then
      let r := count_range_matches lo hi rest
      (r.1 + 1, k :: r.2)
    else if !strLt k hi then (0, [k])
    else
      let r := count_range_matches lo hi rest
      (r.1, k :: r.2)

/-- Loop of `count_full_scan_matches` (`src/db/query.rs:186-203`): full
iteration, no early termination. -/
def count_full_scan_matches (pred : String → Bytes → Bool) : Space → Nat
  | [] => 0
  | (k, v) :: rest =>
    if pred k v then count_full_scan_matches pred rest + 1
    else count_full_scan_matches pred rest

/-- Loop of `scan_prefix_paginated` (`src/db/query.rs:205-233`), instrumented
with the examined keys; `skipped`/`items` mirror the Rust locals. -/
def scanPrefixLoop (p : String) (offset limit : Nat) :
    Nat → List (String × Bytes) → Space → List (String × Bytes) × List String
  | _, items, [] => (items, [])
  | skipped, items, (k, v) :: rest =>
    if strStarts p k then
      if offset ≤ skipped then
        let items1 := items ++ [(k, v)]
        if limit ≤ items1.length then (items1, [k])
        else
          let r := scanPrefixLoop p offset limit skipped items1 rest
          (r.1, k :: r.2)
      else
        let r := scanPrefixLoop p offset limit (skipped + 1) items rest
        (r.1, k :: r.2)
    else if strLt p k then (items, [k])
    else
      let r := scanPrefixLoop p offset limit skipped items rest
      (r.1, k :: r.2)

/-- `scan_prefix_paginated` (`src/db/query.rs:205-233`). -/
def scan_prefix_paginated (p : String) (offset limit : Nat) (sp : Space) :
    List (String × Bytes) × List String :=
  scanPrefixLoop p offset limit 0 [] sp

/-- Loop of `scan_range_paginated` (`src/db/query.rs:235-264`), instrumented
with the examined keys. -/
def scanRangeLoop (lo hi : String) (offset limit : Nat) :
    Nat → List (String × Bytes) → Space → List (String × Bytes) × List String
  | _, items, [] => (items, [])
  | skipped, items, (k, v) :: rest =>
    if !strLt k lo && strLt k hi then
      if offset ≤ skipped then
        let items1 := items ++ [(k, v)]
        if limit ≤ items1.length then (items1, [k])
        else
          let r := scanRangeLoop lo hi offset limit skipped items1 rest
          (r.1, k :: r.2)
      else
        let r := scanRangeLoop lo hi offset limit (skipped + 1) items rest
        (r.1, k :: r.2)
    else if !strLt k hi then (items, [k])
    else
      let r := scanRangeLoop lo hi offset limit skipped items rest
      (r.1, k :: r.2)

/-- `scan_range_paginated` (`src/db/query.rs:235-264`). -/
def scan_range_paginated (lo hi : String) (offset limit : Nat) (sp : Space) :
    List (String × Bytes) × List String :=
  scanRangeLoop lo hi offset limit 0 [] sp

/-- Loop of `scan_full_paginated` (`src/db/query.rs:266-294`): full iteration
with offset/limit, stopping once the page is full. -/
def scanFullLoop (pred : String → Bytes → Bool) (offset limit : Nat) :
    Nat → List (String × Bytes) → Space → List (String × Bytes)
  | _, items, [] => items
  | skipped, items, (k, v) :: rest =>
    if pred k v then
      if offset ≤ skipped then
        let items1 := items ++ [(k, v)]
        if limit ≤ items1.length then items1
        else scanFullLoop pred offset limit skipped items1 rest
      else scanFullLoop pred offset limit (skipped + 1) items rest
    else scanFullLoop pred offset limit skipped items rest

/-- `scan_full_paginated` (`src/db/query.rs:266-294`). -/
def scan_full_paginated (pred : String → Bytes → Bool) (offset limit : Nat) (sp : Space) :
    List (String × Bytes) :=
  scanFullLoop pred offset limit 0 [] sp

/-- `count_matches` (`src/db/query.rs:76-95`).  `jp` is the
jsonpath-on-decoded-value test (`decode_value` + `jsonpath::select`), shared
verbatim with `scan_paginated`. -/
def count_matches (jp : String → Bytes → Bool) (e : Env) (db : String) (m : Mode) :
    Except String Nat := do
  let sp ← openDatabase e db
  match m with
  | .pfx p => .ok (count_prefix_matches p sp).1
  | .range lo hi => .ok (count_range_matches lo hi sp).1
  | .regexM f => .ok (count_full_scan_matches (fun k _ => f k) sp)
  | .jsonPath path => .ok (count_full_scan_matches (fun _ v => jp path v) sp)

/-- `scan_paginated` (`src/db/query.rs:98-125`). -/
def scan_paginated (jp : String → Bytes → Bool) (e : Env) (db : String) (m : Mode)
    (offset limit : Nat) : Except String (List (String × Bytes)) := do
  let sp ← openDatabase e db
  match m with
  | .pfx p => .ok (scan_prefix_paginated p offset limit sp).1
  | .range lo hi => .ok (scan_range_paginated lo hi offset limit sp).1
  | .regexM f => .ok (scan_full_paginated (fun k _ => f k) offset limit sp)
  | .jsonPath path => .ok (scan_full_paginated (fun _ v => jp path v) offset limit sp)

/-- A mutator call as issued by the UI: `commands::put` or
`commands::delete`. -/
inductive Mut where
  | put (db key : String) (v : Bytes)
  | del (db key : String)
deriving DecidableEq, Repr

/-- Run a single mutator call. -/
def runMut (e : Env) (s : UndoStack) : Mut → Except String (Env × UndoStack)
  | .put db k v => commands.put e s db k v
  | .del db k => commands.delete e s db k

/-- Run a sequence of mutator calls, threading store and undo log. -/
def runMuts (e : Env) (s : UndoStack) : List Mut → Except String (Env × UndoStack)
  | [] => .ok (e, s)
  | m :: ms => do
    let r ← runMut e s m
    runMuts r.1 r.2 ms

/-- The store evolution of `runMuts`, without the undo log. -/
def runMutsE (e : Env) : List Mut → Except String Env
  | [] => .ok e
  | .put db k v :: ms => runMutsE (kv.put e db k v) ms
  | .del db k :: ms =>
    match kv.delete e db k with
    | .ok e1 => runMutsE e1 ms
    | .error m => .error m

/-- The undo records a successful `runMuts` pushes, in order. -/
def recsOf (e : Env) : List Mut → List Op
  | [] => []
  | .put db k v :: ms => .put db k (getVal e db k) v :: recsOf (kv.put e db k v) ms
  | .del db k :: ms =>
    match kv.delete e db k with
    | .ok e1 => .del db k (getVal e db k) :: recsOf e1 ms
    | .error _ => []

/-- Iterate `UndoStack::undo` `n` times, stopping at the first failure. -/
def undoSteps (s : UndoStack) (e : Env) : Nat → UndoStack × Except String Env
  | 0 => (s, .ok e)
  | n + 1 =>
    match s.undo e with
    | (s1, .ok p) => undoSteps s1 p.1 n
    | (s1, .error m) => (s1, .error m)

/-- Iterate `UndoStack::redo` `n` times, stopping at the first failure. -/
def redoSteps (s : UndoStack) (e : Env) : Nat → UndoStack × Except String Env
  | 0 => (s, .ok e)
  | n + 1 =>
    match s.redo e with
    | (s1, .ok p) => redoSteps s1 p.1 n
    | (s1, .error m) => (s1, .error m)

/-- Apply `n` undos and then `n` redos. -/
def undoAllRedoAll (s : UndoStack) (e : Env) (n : Nat) : UndoStack × Except String Env :=
  match undoSteps s e n with
  | (s1, .ok e1) => redoSteps s1 e1 n
  | r => r

/-- Simulation relation used to verify undo/redo replay: `t` agrees with `e`
on the anonymous space and on the content of every named space of `e`, and
may additionally contain empty named spaces where `e` has none.  (Undoing a
`put` that created a space deletes the key but cannot drop the space, so the
replayed store may carry empty residue spaces; their content is
indistinguishable.) -/
def EnvApprox (t e : Env) : Prop :=
  t.anon = e.anon ∧
  ∀ d, (envGetDb e.named d = none →
          envGetDb t.named d = none ∨ envGetDb t.named d = some []) ∧
       (∀ sp, envGetDb e.named d = some sp → envGetDb t.named d = some sp)

/-! ### Order lemmas for the key comparison -/

theorem charsLt_irrefl (l : List Char) : charsLt l l = false := by
  induction l with
  | nil => rfl
  | cons c cs ih => simp [charsLt, lt_irrefl, ih]

theorem charsLt_asymm : ∀ {a b : List Char}, charsLt a b = true → charsLt b a = false
  | [], [], h => by simp [charsLt] at h
  | [], _ :: _, _ => rfl
  | _ :: _, [], h => by simp [charsLt] at h
  | a :: as, b :: bs, h => by
    simp only [charsLt] at h ⊢
    by_cases hab : a < b
    · have hba : ¬ b < a := asymm hab
      simp [hab, hba]
    · by_cases hba : b < a
      · simp [hab, hba] at h
      · simp only [hab, hba, if_false] at h ⊢
        exact charsLt_asymm h

theorem charsLt_trans : ∀ {a b c : List Char},
    charsLt a b = true → charsLt b c = true → charsLt a c = true
  | [], _, _ :: _, _, _ => rfl
  | [], _ :: _, [], _, h2 => by simp [charsLt] at h2
  | [], [], [], h1, _ => by simp [charsLt] at h1
  | _ :: _, [], _, h1, _ => by simp [charsLt] at h1
  | _ :: _, _ :: _, [], _, h2 => by simp [charsLt] at h2
  | a :: as, b :: bs, c :: cs, h1, h2 => by
    simp only [charsLt] at h1 h2 ⊢
    by_cases hab : a < b
    · by_cases hbc : b < c
      · have hac : a < c := lt_trans hab hbc
        simp [hac]
      · by_cases hcb : c < b
        · simp [hab, hbc, hcb] at h2
        · have hbc2 : b = c := le_antisymm (not_lt.mp hcb) (not_lt.mp hbc)
          subst hbc2
          simp [hab]
    · by_cases hba : b < a
      · simp [hab, hba] at h1
      · have hab2 : a = b := le_antisymm (not_lt.mp hba) (not_lt.mp hab)
        subst hab2
        simp only [lt_irrefl, if_false] at h1
        by_cases hac : a < c
        · simp [hac]
        · by_cases hca : c < a
          · simp [hac, hca] at h2
          · simp only [hac, hca, if_false] at h2 ⊢
            exact charsLt_trans h1 h2

theorem charsLt_total : ∀ (a b : List Char), charsLt a b = true ∨ a = b ∨ charsLt b a = true
  | [], [] => Or.inr (Or.inl rfl)
  | [], _ :: _ => Or.inl rfl
  | _ :: _, [] => Or.inr (Or.inr rfl)
  | a :: as, b :: bs => by
    by_cases hab : a < b
    · exact Or.inl (by simp [charsLt, hab])
    · by_cases hba : b < a
      · exact Or.inr (Or.inr (by simp [charsLt, hba, hab]))
      · have hab2 : a = b := le_antisymm (not_lt.mp hba) (not_lt.mp hab)
        subst hab2
        rcases charsLt_total as bs with h | h | h
        · exact Or.inl (by simp [charsLt, lt_irrefl, h])
        · exact Or.inr (Or.inl (by rw [h]))
        · exact Or.inr (Or.inr (by simp [charsLt, lt_irrefl, h]))

theorem strLt_irrefl (s : String) : strLt s s = false := charsLt_irrefl s.data

theorem strLt_asymm {a b : String} (h : strLt a b = true) : strLt b a = false :=
  charsLt_asymm h

theorem strLt_trans {a b c : String} (h1 : strLt a b = true) (h2 : strLt b c = true) :
    strLt a c = true :=
  charsLt_trans h1 h2

theorem strLt_total (a b : String) : strLt a b = true ∨ a = b ∨ strLt b a = true := by
  rcases charsLt_total a.data b.data with h | h | h
  · exact Or.inl h
  · exact Or.inr (Or.inl (String.ext h))
  · exact Or.inr (Or.inr h)

theorem strLt_of_not_lt_of_ne {a b : String} (h1 : strLt a b = false) (h2 : a ≠ b) :
    strLt b a = true := by
  rcases strLt_total a b with h | h | h
  · rw [h] at h1; cases h1
  · exact absurd h h2
  · exact h

/-! ### Stack projection lemmas -/

theorem undo_fst (s : UndoStack) (e : Env) :
    (s.undo e).1 = if s.pos = 0 then s else { s with pos := s.pos - 1 } := by
  unfold UndoStack.undo
  by_cases h0 : s.pos = 0
  · simp [h0]
  · simp only [h0, if_false]
    cases s.ops.get? (s.pos - 1) with
    | none => rfl
    | some op => cases h2 : applyInverse e op <;> simp [h2]

theorem redo_fst (s : UndoStack) (e : Env) :
    (s.redo e).1 =
      if s.pos = s.ops.length then s
      else
        match s.ops.get? s.pos with
        | none => s
        | some _ => { s with pos := s.pos + 1 } := by
  unfold UndoStack.redo
  by_cases h0 : s.pos = s.ops.length
  · simp [h0]
  · simp only [h0, if_false]
    cases s.ops.get? s.pos with
    | none => rfl
    | some op => cases h2 : applyForward e op <;> simp [h2]

/-! ### Claim theorems -/

/-- C10: `kv::get` on a space missing from the snapshot returns `Ok(None)`
rather than an error, exactly as it does for a present space that lacks the
key — the two cases are indistinguishable at the `get` interface. -/
theorem get_missing_space_ok_none (e : Env) (db k : String) :
    (envGetDb e.named db = none → kv.get e db k = .ok none) ∧
    (∀ sp, envGetDb e.named db = some sp → spaceGet sp k = none →
      kv.get e db k = .ok none) := by
  constructor
  · intro h
    simp [kv.get, h]
  · intro sp h hk
    simp [kv.get, h, hk]

/-- C10 witness: a concrete missing space and a concrete present space
without the key both yield `Ok(None)`. -/
theorem get_missing_space_ok_none_example :
    kv.get ⟨[], []⟩ "d" "k" = .ok none ∧
    kv.get ⟨[], [("d", [("a", [1])])]⟩ "d" "k" = .ok none :=
  ⟨(get_missing_space_ok_none ⟨[], []⟩ "d" "k").1 rfl,
   (get_missing_space_ok_none ⟨[], [("d", [("a", [1])])]⟩ "d" "k").2 [("a", [1])] rfl rfl⟩

/-- C3, evaluated at the failing input: `kv::put` addressed to the reserved
name `"(unnamed)"` creates a literal named space called `"(unnamed)"` and
leaves the anonymous root space untouched, so the write is invisible to the
read-side resolution of `"(unnamed)"` (`open_database` and
`list_entries_paginated` both resolve it to the root space). -/
theorem put_unnamed_creates_literal_space :
    (kv.put ⟨[], []⟩ "(unnamed)" "k" [1]).named = [("(unnamed)", [("k", [1])])] ∧
    (kv.put ⟨[], []⟩ "(unnamed)" "k" [1]).anon = [] ∧
    openDatabase (kv.put ⟨[], []⟩ "(unnamed)" "k" [1]) "(unnamed)" = .ok [] ∧
    list_entries_paginated (kv.put ⟨[], []⟩ "(unnamed)" "k" [1]) "(unnamed)" 0 10 = .ok [] :=
  ⟨rfl, rfl, rfl, rfl⟩

/-- C7: the undo cursor satisfies `0 ≤ pos ≤ len(ops)` and every stack
operation preserves it; `push` with `pos < len` truncates `ops[pos..]` before
appending, and after a `push` the cursor sits at the end of the log. -/
theorem undo_cursor_bounds :
    (∀ (s : UndoStack) (op : Op), (s.push op).pos = (s.push op).ops.length) ∧
    (∀ (s : UndoStack) (op : Op), s.pos < s.ops.length →
      (s.push op).ops = s.ops.take s.pos ++ [op]) ∧
    (∀ (s : UndoStack) (e : Env), s.pos ≤ s.ops.length →
      (s.undo e).1.pos ≤ (s.undo e).1.ops.length) ∧
    (∀ (s : UndoStack) (e : Env), s.pos ≤ s.ops.length →
      (s.redo e).1.pos ≤ (s.redo e).1.ops.length) := by
  refine ⟨?_, ?_, ?_, ?_⟩
  · intro s op
    simp [UndoStack.push]
  · intro s op h
    simp [UndoStack.push, h]
  · intro s e h
    rw [undo_fst]
    by_cases h0 : s.pos = 0
    · simpa [h0] using h
    · simpa [h0] using Nat.le_trans (Nat.sub_le _ _) h
  · intro s e h
    rw [redo_fst]
    by_cases h0 : s.pos = s.ops.length
    · simpa [h0] using h
    · simp only [h0, if_false]
      cases s.ops.get? s.pos with
      | none => exact h
      | some op => simpa using Nat.lt_of_le_of_ne h h0

/-- C7 witness: the invariant, instantiated at a concrete stack with a
pending redoable tail. -/
theorem undo_cursor_bounds_example :
    ((⟨[.del "d" "a" none], 0⟩ : UndoStack).push (.put "d" "b" none [1])).pos =
      ((⟨[.del "d" "a" none], 0⟩ : UndoStack).push (.put "d" "b" none [1])).ops.length ∧
    ((⟨[.del "d" "a" none], 0⟩ : UndoStack).push (.put "d" "b" none [1])).ops =
      ([.del "d" "a" none] : List Op).take 0 ++ [.put "d" "b" none [1]] ∧
    ((⟨[.del "d" "a" none], 1⟩ : UndoStack).undo ⟨[], []⟩).1.pos ≤
      ((⟨[.del "d" "a" none], 1⟩ : UndoStack).undo ⟨[], []⟩).1.ops.length ∧
    ((⟨[.del "d" "a" none], 0⟩ : UndoStack).redo ⟨[], []⟩).1.pos ≤
      ((⟨[.del "d" "a" none], 0⟩ : UndoStack).redo ⟨[], []⟩).1.ops.length :=
  ⟨undo_cursor_bounds.1 ⟨[.del "d" "a" none], 0⟩ (.put "d" "b" none [1]),
   undo_cursor_bounds.2.1 ⟨[.del "d" "a" none], 0⟩ (.put "d" "b" none [1]) (by decide),
   undo_cursor_bounds.2.2.1 ⟨[.del "d" "a" none], 1⟩ ⟨[], []⟩ (by decide),
   undo_cursor_bounds.2.2.2 ⟨[.del "d" "a" none], 0⟩ ⟨[], []⟩ (by decide)⟩

/-- C2 counterexample: an undo whose inverse fails (the record's space is
missing, so the inverse `kv::delete` errors) does change the cursor — `pos`
drops from 1 to 0, because `UndoStack::undo` decrements `self.pos` before
applying the inverse. -/
theorem undo_failure_cursor_moved :
    ((⟨[.put "d" "k" none [1]], 1⟩ : UndoStack).undo ⟨[], []⟩).2 =
      .error "database not found" ∧
    ((⟨[.put "d" "k" none [1]], 1⟩ : UndoStack).undo ⟨[], []⟩).1.pos = 0 :=
  ⟨rfl, rfl⟩

/-- C2 as amended: when the inverse fails inside `UndoStack::undo`, the
cursor is left *decremented by one* (the log itself is unchanged); in
particular a failing undo implies the cursor was positive. -/
theorem undo_failure_decrements_cursor (s : UndoStack) (e : Env) (m : String)
    (h : (s.undo e).2 = .error m) :
    (s.undo e).1.pos = s.pos - 1 ∧ (s.undo e).1.ops = s.ops ∧ 0 < s.pos := by
  have h0 : ¬ s.pos = 0 := by
    intro h0
    rw [show s.undo e = (s, .ok (e, false)) from by unfold UndoStack.undo; simp [h0]] at h
    cases h
  rw [undo_fst]
  simp [h0, Nat.pos_of_ne_zero h0]

theorem stripPrefixChars_head {p : Char} {ps s r : List Char}
    (h : stripPrefixChars (p :: ps) s = some r) : ∃ tl, s = p :: tl := by
  cases s with
  | nil => cases h
  | cons c cs =>
    by_cases hc : c = p
    · exact ⟨cs, by rw [hc]⟩
    · simp [stripPrefixChars, hc] at h

/-- C8: the parser fails with `EmptyQuery` exactly on inputs that trim to
empty; a `range ` query whose body has neither a `..` separator nor two
whitespace-separated keys fails with `BadQuery("invalid range")`; and any
non-empty trimmed input starting with none of the four keywords parses as a
`Prefix` over the whole trimmed input. -/
theorem parse_query_spec :
    (∀ (rx : String → Option (String → Bool)) (s : String),
      parse_query rx s = .error .emptyQuery ↔ trimChars s.data = []) ∧
    (∀ (rx : String → Option (String → Bool)) (s : String) (body : List Char),
      stripPrefixChars "range ".data (trimChars s.data) = some body →
      splitOnceDots body = none →
      (splitWsChars body).length < 2 →
      parse_query rx s = .error .invalidRange) ∧
    (∀ (rx : String → Option (String → Bool)) (s : String),
      trimChars s.data ≠ [] →
      stripPrefixChars "prefix ".data (trimChars s.data) = none →
      stripPrefixChars "range ".data (trimChars s.data) = none →
      stripPrefixChars "regex ".data (trimChars s.data) = none →
      stripPrefixChars "jsonpath ".data (trimChars s.data) = none →
      parse_query rx s = .ok (.pfx (String.mk (trimChars s.data)))) := by
  refine ⟨?_, ?_, ?_⟩
  · intro rx s
    constructor
    · intro h
      simp only [parse_query] at h
      split at h
      · assumption
      · exfalso
        repeat' split at h
        all_goals simp at h
    · intro h
      unfold parse_query
      simp [h]
  · intro rx s body h1 h2 h3
    have h0 : trimChars s.data ≠ [] := by
      intro h0
      rw [h0] at h1
      cases h1
    obtain ⟨tl, htl⟩ := stripPrefixChars_head h1
    have hpfx : stripPrefixChars "prefix ".data (trimChars s.data) = none := by
      rw [htl]
      simp [stripPrefixChars, show ('r' : Char) ≠ 'p' from by decide]
    unfold parse_query
    simp only [h0, if_false, hpfx, h1, h2]
    cases hw : splitWsChars body with
    | nil => rfl
    | cons a rest =>
      cases rest with
      | nil => rfl
      | cons b rest2 =>
        rw [hw] at h3
        simp at h3
        omega
  · intro rx s h0 hp hr hx hj
    unfold parse_query
    simp only [h0, if_false, hp, hr, hx, hj]

/-- C8 witness: the three clauses at concrete inputs — a whitespace-only
query, an ill-formed range, and a keyword-free input. -/
theorem parse_query_spec_example :
    (parse_query (fun _ => none) "  " = .error .emptyQuery ↔ trimChars "  ".data = []) ∧
    parse_query (fun _ => none) "range xy" = .error .invalidRange ∧
    parse_query (fun _ => none) "hello world" =
      .ok (.pfx (String.mk (trimChars "hello world".data))) :=
  ⟨parse_query_spec.1 (fun _ => none) "  ",
   parse_query_spec.2.1 (fun _ => none) "range xy" "xy".data rfl rfl (by decide),
   parse_query_spec.2.2 (fun _ => none) "hello world" (by decide) rfl rfl rfl rfl⟩

theorem envGetDb_mem : ∀ {l : List (String × Space)} {d : String} {sp : Space},
    envGetDb l d = some sp → (d, sp) ∈ l
  | [], _, _, h => by cases h
  | (n, sp1) :: rest, d, sp, h => by
    by_cases hd : d = n
    · subst hd
      simp [envGetDb] at h
      subst h
      exact List.mem_cons_self _ _
    · simp only [envGetDb, hd, if_false] at h
      exact List.mem_cons_of_mem _ (envGetDb_mem h)

theorem lepLoop_eq (offset limit : Nat) :
    ∀ (l : List (String × Bytes)) (skipped : Nat) (items : List (String × Bytes)),
      lepLoop offset limit skipped items l =
        items ++ (l.drop (offset - skipped)).take (limit - items.length)
  | [], skipped, items => by simp [lepLoop]
  | (k, v) :: rest, skipped, items => by
    by_cases hs : skipped < offset
    · rw [lepLoop, if_pos hs, lepLoop_eq offset limit rest (skipped + 1) items]
      have hd : offset - skipped = (offset - (skipped + 1)) + 1 := by omega
      rw [hd]
      rfl
    · by_cases hl : limit ≤ items.length
      · rw [lepLoop, if_neg hs, if_pos hl]
        have h1 : limit - items.length = 0 := by omega
        simp [h1]
      · rw [lepLoop, if_neg hs, if_neg hl,
          lepLoop_eq offset limit rest skipped (items ++ [(k, v)])]
        have h0 : offset - skipped = 0 := by omega
        have h2 : limit - items.length = (limit - (items.length + 1)) + 1 := by omega
        simp [h0, h2]

/-- C9: the paginated reader returns `(sp.drop offset).take limit`: entries in
ascending key order, at most `limit` of them, and an offset at or past the end
yields an empty page without error. -/
theorem list_entries_paginated_spec (e : Env) (db : String) (offset limit : Nat) (sp : Space)
    (hwf : EnvWF e)
    (hsp : (if db = "(unnamed)" then some e.anon else envGetDb e.named db) = some sp) :
    list_entries_paginated e db offset limit = .ok ((sp.drop offset).take limit) ∧
    ((sp.drop offset).take limit).Pairwise (fun a b => strLt a.1 b.1 = true) ∧
    ((sp.drop offset).take limit).length ≤ limit ∧
    (sp.length ≤ offset → list_entries_paginated e db offset limit = .ok []) := by
  have hswf : SpaceWF sp := by
    by_cases hu : db = "(unnamed)"
    · rw [if_pos hu, Option.some.injEq] at hsp
      rw [← hsp]
      exact hwf.1
    · rw [if_neg hu] at hsp
      exact hwf.2.1 (db, sp) (envGetDb_mem hsp)
  have hmain : list_entries_paginated e db offset limit = .ok ((sp.drop offset).take limit) := by
    unfold list_entries_paginated
    by_cases hu : db = "(unnamed)"
    · rw [if_pos hu] at hsp ⊢
      rw [Option.some.injEq] at hsp
      rw [hsp, lepLoop_eq]
      simp
    · rw [if_neg hu] at hsp ⊢
      rw [hsp]
      show Except.ok (lepLoop offset limit 0 [] sp) = _
      rw [lepLoop_eq]
      simp
  refine ⟨hmain, ?_, ?_, ?_⟩
  · exact List.Pairwise.sublist ((List.take_sublist _ _).trans (List.drop_sublist _ _)) hswf
  · exact List.length_take_le _ _
  · intro hoff
    rw [hmain, List.drop_eq_nil_of_le hoff]
    simp

/-- C9 witness: a concrete environment, with an in-range page and an
out-of-range offset. -/
theorem list_entries_paginated_spec_example :
    list_entries_paginated ⟨[], [("d", [("a", [1]), ("b", [2])])]⟩ "d" 1 5 =
      .ok (([("a", [1]), ("b", [2])] : Space).drop 1 |>.take 5) ∧
    (([("a", [1]), ("b", [2])] : Space).drop 1 |>.take 5).Pairwise
      (fun a b => strLt a.1 b.1 = true) ∧
    (([("a", [1]), ("b", [2])] : Space).drop 1 |>.take 5).length ≤ 5 ∧
    (([("a", [1]), ("b", [2])] : Space).length ≤ 1 →
      list_entries_paginated ⟨[], [("d", [("a", [1]), ("b", [2])])]⟩ "d" 1 5 = .ok []) :=
  list_entries_paginated_spec ⟨[], [("d", [("a", [1]), ("b", [2])])]⟩ "d" 1 5
    [("a", [1]), ("b", [2])] (by decide) rfl

theorem mem_dropLast_cons {x a : String} {l : List String} (h : x ∈ (a :: l).dropLast) :
    x = a ∨ x ∈ l.dropLast := by
  cases l with
  | nil => simp at h
  | cons b t =>
    rw [show (a :: b :: t).dropLast = a :: (b :: t).dropLast from rfl] at h
    exact List.mem_cons.mp h

theorem count_prefix_examined (p : String) :
    ∀ (sp : Space) (k : String), k ∈ (count_prefix_matches p sp).2.dropLast →
      strStarts p k = true ∨ strLt p k = false
  | [], k, h => by simp [count_prefix_matches] at h
  | (k1, v1) :: rest, k, h => by
    by_cases h1 : strStarts p k1 = true
    · simp only [count_prefix_matches, h1, if_pos] at h
      rcases mem_dropLast_cons h with h2 | h2
      · exact h2 ▸ Or.inl h1
      · exact count_prefix_examined p rest k h2
    · by_cases h2 : strLt p k1 = true
      · simp [count_prefix_matches, h1, h2] at h
      · simp only [count_prefix_matches, h1, h2, if_neg, Bool.false_eq_true] at h
        rcases mem_dropLast_cons h with h3 | h3
        · exact h3 ▸ Or.inr (Bool.not_eq_true _ |>.mp h2)
        · exact count_prefix_examined p rest k h3

theorem count_range_examined (lo hi : String) :
    ∀ (sp : Space) (k : String), k ∈ (count_range_matches lo hi sp).2.dropLast →
      strLt k hi = true
  | [], k, h => by simp [count_range_matches] at h
  | (k1, v1) :: rest, k, h => by
    by_cases h1 : (!strLt k1 lo && strLt k1 hi) = true
    · simp only [count_range_matches, h1, if_pos] at h
      rcases mem_dropLast_cons h with h2 | h2
      · subst h2
        exact (Bool.and_eq_true _ _ |>.mp h1).2
      · exact count_range_examined lo hi rest k h2
    · by_cases h2 : (!strLt k1 hi) = true
      · simp [count_range_matches, h1, h2] at h
      · simp only [count_range_matches, h1, h2, if_neg, Bool.false_eq_true] at h
        rcases mem_dropLast_cons h with h3 | h3
        · subst h3
          simpa using h2
        · exact count_range_examined lo hi rest k h3

theorem scanPrefixLoop_examined (p : String) (offset limit : Nat) :
    ∀ (sp : Space) (skipped : Nat) (items : List (String × Bytes)) (k : String),
      k ∈ (scanPrefixLoop p offset limit skipped items sp).2.dropLast →
      strStarts p k = true ∨ strLt p k = false
  | [], skipped, items, k, h => by simp [scanPrefixLoop] at h
  | (k1, v1) :: rest, skipped, items, k, h => by
    simp only [scanPrefixLoop] at h
    split at h
    next h1 =>
      split at h
      next hsk =>
        split at h
        next hl => simp at h
        next hl =>
          rcases mem_dropLast_cons h with h2 | h2
          · exact h2 ▸ Or.inl h1
          · exact scanPrefixLoop_examined p offset limit rest skipped (items ++ [(k1, v1)]) k h2
      next hsk =>
        rcases mem_dropLast_cons h with h2 | h2
        · exact h2 ▸ Or.inl h1
        · exact scanPrefixLoop_examined p offset limit rest (skipped + 1) items k h2
    next h1 =>
      split at h
      next h2 => simp at h
      next h2 =>
        rcases mem_dropLast_cons h with h3 | h3
        · subst h3
          exact Or.inr (by simpa using h2)
        · exact scanPrefixLoop_examined p offset limit rest skipped items k h3

theorem scanRangeLoop_examined (lo hi : String) (offset limit : Nat) :
    ∀ (sp : Space) (skipped : Nat) (items : List (String × Bytes)) (k : String),
      k ∈ (scanRangeLoop lo hi offset limit skipped items sp).2.dropLast →
      strLt k hi = true
  | [], skipped, items, k, h => by simp [scanRangeLoop] at h
  | (k1, v1) :: rest, skipped, items, k, h => by
    simp only [scanRangeLoop] at h
    split at h
    next h1 =>
      split at h
      next hsk =>
        split at h
        next hl => simp at h
        next hl =>
          rcases mem_dropLast_cons h with h2 | h2
          · subst h2
            exact (Bool.and_eq_true _ _ |>.mp h1).2
          · exact scanRangeLoop_examined lo hi offset limit rest skipped
              (items ++ [(k1, v1)]) k h2
      next hsk =>
        rcases mem_dropLast_cons h with h2 | h2
        · subst h2
          exact (Bool.and_eq_true _ _ |>.mp h1).2
        · exact scanRangeLoop_examined lo hi offset limit rest (skipped + 1) items k h2
    next h1 =>
      split at h
      next h2 => simp at h
      next h2 =>
        rcases mem_dropLast_cons h with h3 | h3
        · subst h3
          simpa using h2
        · exact scanRangeLoop_examined lo hi offset limit rest skipped items k h3

/-- C5 counterexample: a range scan over `[("a",_), ("z",_)]` with bounds
`("a", "c")` examines the key `"z"`, which is strictly greater than the upper
bound `"c"` — the loop must read one key past the band to know it can stop. -/
theorem scan_examines_key_past_bound :
    (scan_range_paginated "a" "c" 0 10 [("a", [1]), ("z", [2])]).2 = ["a", "z"] ∧
    strLt "c" "z" = true :=
  ⟨rfl, rfl⟩

/-- C5 as amended: prefix and range scans (counting and paginating) examine
at most one key beyond the upper bound of their range — every examined key
except the final one either matches the prefix / lies below the range end, or
is not above the bound; the scan stops at the first key past the band. -/
theorem scan_examined_keys_bounded :
    (∀ (p : String) (sp : Space) (k : String),
      k ∈ (count_prefix_matches p sp).2.dropLast →
      strStarts p k = true ∨ strLt p k = false) ∧
    (∀ (lo hi : String) (sp : Space) (k : String),
      k ∈ (count_range_matches lo hi sp).2.dropLast → strLt k hi = true) ∧
    (∀ (p : String) (offset limit : Nat) (sp : Space) (k : String),
      k ∈ (scan_prefix_paginated p offset limit sp).2.dropLast →
      strStarts p k = true ∨ strLt p k = false) ∧
    (∀ (lo hi : String) (offset limit : Nat) (sp : Space) (k : String),
      k ∈ (scan_range_paginated lo hi offset limit sp).2.dropLast → strLt k hi = true) :=
  ⟨fun p sp => count_prefix_examined p sp,
   fun lo hi sp => count_range_examined lo hi sp,
   fun p offset limit sp => scanPrefixLoop_examined p offset limit sp 0 [],
   fun lo hi offset limit sp => scanRangeLoop_examined lo hi offset limit sp 0 []⟩

/-- C5 witness for the amended statement: the non-final examined keys of
concrete prefix and range scans satisfy the bound. -/
theorem scan_examined_keys_bounded_example :
    (strStarts "a" "ab" = true ∨ strLt "a" "ab" = false) ∧
    strLt "b" "c" = true ∧
    (strStarts "a" "a" = true ∨ strLt "a" "a" = false) ∧
    strLt "a" "c" = true :=
  ⟨scan_examined_keys_bounded.1 "a" [("a", [1]), ("ab", [2]), ("b", [3])] "ab" (by decide),
   scan_examined_keys_bounded.2.1 "a" "c" [("b", [1]), ("x", [2])] "b" (by decide),
   scan_examined_keys_bounded.2.2.1 "a" 0 10 [("a", [1]), ("ab", [2]), ("b", [3])] "a"
     (by decide),
   scan_examined_keys_bounded.2.2.2 "a" "c" 0 10 [("a", [1]), ("x", [2])] "a" (by decide)⟩

theorem scanPrefixLoop_length (p : String) (limit : Nat) :
    ∀ (sp : Space) (skipped : Nat) (items : List (String × Bytes)),
      items.length + sp.length ≤ limit →
      (scanPrefixLoop p 0 limit skipped items sp).1.length =
        items.length + (count_prefix_matches p sp).1
  | [], skipped, items, hlim => by simp [scanPrefixLoop, count_prefix_matches]
  | (k1, v1) :: rest, skipped, items, hlim => by
    simp only [scanPrefixLoop, count_prefix_matches, Nat.zero_le, if_true]
    split
    next h1 =>
      split
      next hl =>
        have hr : rest = [] := by
          have := List.length_cons (k1, v1) rest ▸ hlim
          simp at hl
          exact List.length_eq_zero.mp (by omega)
        subst hr
        simp [count_prefix_matches]
      next hl =>
        rw [scanPrefixLoop_length p limit rest skipped (items ++ [(k1, v1)])
          (by simp at hlim ⊢; omega)]
        simp
        omega
    next h1 =>
      split
      next h2 => simp [h1]
      next h2 =>
        rw [scanPrefixLoop_length p limit rest skipped items (by simp at hlim ⊢; omega)]

theorem scanRangeLoop_length (lo hi : String) (limit : Nat) :
    ∀ (sp : Space) (skipped : Nat) (items : List (String × Bytes)),
      items.length + sp.length ≤ limit →
      (scanRangeLoop lo hi 0 limit skipped items sp).1.length =
        items.length + (count_range_matches lo hi sp).1
  | [], skipped, items, hlim => by simp [scanRangeLoop, count_range_matches]
  | (k1, v1) :: rest, skipped, items, hlim => by
    simp only [scanRangeLoop, count_range_matches, Nat.zero_le, if_true]
    split
    next h1 =>
      split
      next hl =>
        have hr : rest = [] := by
          simp at hl
          have := List.length_cons (k1, v1) rest ▸ hlim
          exact List.length_eq_zero.mp (by omega)
        subst hr
        simp [count_range_matches]
      next hl =>
        rw [scanRangeLoop_length lo hi limit rest skipped (items ++ [(k1, v1)])
          (by simp at hlim ⊢; omega)]
        simp
        omega
    next h1 =>
      split
      next h2 => simp [h1]
      next h2 =>
        rw [scanRangeLoop_length lo hi limit rest skipped items (by simp at hlim ⊢; omega)]

theorem scanFullLoop_length (pred : String → Bytes → Bool) (limit : Nat) :
    ∀ (sp : Space) (skipped : Nat) (items : List (String × Bytes)),
      items.length + sp.length ≤ limit →
      (scanFullLoop pred 0 limit skipped items sp).length =
        items.length + count_full_scan_matches pred sp
  | [], skipped, items, hlim => by simp [scanFullLoop, count_full_scan_matches]
  | (k1, v1) :: rest, skipped, items, hlim => by
    simp only [scanFullLoop, count_full_scan_matches, Nat.zero_le, if_true]
    split
    next h1 =>
      split
      next hl =>
        have hr : rest = [] := by
          simp at hl
          have := List.length_cons (k1, v1) rest ▸ hlim
          exact List.length_eq_zero.mp (by omega)
        subst hr
        simp [count_full_scan_matches, h1]
      next hl =>
        rw [scanFullLoop_length pred limit rest skipped (items ++ [(k1, v1)])
          (by simp at hlim ⊢; omega)]
        simp [h1]
        omega
    next h1 =>
      rw [scanFullLoop_length pred limit rest skipped items (by simp at hlim ⊢; omega)]

/-- C6: for every space and query mode, `count_matches` equals the length of
`scan_paginated` at offset 0 with a limit at least as large as the space
(an unbounded page), including the error case when the space cannot be
resolved. -/
theorem count_matches_eq_scan_length (jp : String → Bytes → Bool) (e : Env) (db : String)
    (m : Mode) (limit : Nat)
    (hlim : ∀ sp, openDatabase e db = .ok sp → sp.length ≤ limit) :
    count_matches jp e db m = (scan_paginated jp e db m 0 limit).map List.length := by
  cases ho : openDatabase e db with
  | error msg =>
    have h1 : count_matches jp e db m = .error msg := by
      unfold count_matches
      rw [ho]
      rfl
    have h2 : scan_paginated jp e db m 0 limit = .error msg := by
      unfold scan_paginated
      rw [ho]
      rfl
    rw [h1, h2]
    rfl
  | ok sp =>
    have hsp : sp.length + 0 ≤ limit := by simpa using hlim sp ho
    cases m with
    | pfx p =>
      have h1 : count_matches jp e db (.pfx p) = .ok (count_prefix_matches p sp).1 := by
        unfold count_matches
        rw [ho]
        rfl
      have h2 : scan_paginated jp e db (.pfx p) 0 limit =
          .ok (scan_prefix_paginated p 0 limit sp).1 := by
        unfold scan_paginated
        rw [ho]
        rfl
      rw [h1, h2]
      refine congrArg Except.ok ?_
      rw [show scan_prefix_paginated p 0 limit sp = scanPrefixLoop p 0 limit 0 [] sp from rfl]
      rw [scanPrefixLoop_length p limit sp 0 [] (by simpa using hsp)]
      simp
    | range lo hi =>
      have h1 : count_matches jp e db (.range lo hi) =
          .ok (count_range_matches lo hi sp).1 := by
        unfold count_matches
        rw [ho]
        rfl
      have h2 : scan_paginated jp e db (.range lo hi) 0 limit =
          .ok (scan_range_paginated lo hi 0 limit sp).1 := by
        unfold scan_paginated
        rw [ho]
        rfl
      rw [h1, h2]
      refine congrArg Except.ok ?_
      rw [show scan_range_paginated lo hi 0 limit sp = scanRangeLoop lo hi 0 limit 0 [] sp
        from rfl]
      rw [scanRangeLoop_length lo hi limit sp 0 [] (by simpa using hsp)]
      simp
    | regexM f =>
      have h1 : count_matches jp e db (.regexM f) =
          .ok (count_full_scan_matches (fun k _ => f k) sp) := by
        unfold count_matches
        rw [ho]
        rfl
      have h2 : scan_paginated jp e db (.regexM f) 0 limit =
          .ok (scan_full_paginated (fun k _ => f k) 0 limit sp) := by
        unfold scan_paginated
        rw [ho]
        rfl
      rw [h1, h2]
      refine congrArg Except.ok ?_
      rw [show scan_full_paginated (fun k _ => f k) 0 limit sp =
        scanFullLoop (fun k _ => f k) 0 limit 0 [] sp from rfl]
      rw [scanFullLoop_length (fun k _ => f k) limit sp 0 [] (by simpa using hsp)]
      simp
    | jsonPath path =>
      have h1 : count_matches jp e db (.jsonPath path) =
          .ok (count_full_scan_matches (fun _ v => jp path v) sp) := by
        unfold count_matches
        rw [ho]
        rfl
      have h2 : scan_paginated jp e db (.jsonPath path) 0 limit =
          .ok (scan_full_paginated (fun _ v => jp path v) 0 limit sp) := by
        unfold scan_paginated
        rw [ho]
        rfl
      rw [h1, h2]
      refine congrArg Except.ok ?_
      rw [show scan_full_paginated (fun _ v => jp path v) 0 limit sp =
        scanFullLoop (fun _ v => jp path v) 0 limit 0 [] sp from rfl]
      rw [scanFullLoop_length (fun _ v => jp path v) limit sp 0 [] (by simpa using hsp)]
      simp

/-- C6 witness: a concrete prefix query where the count equals the page
length. -/
theorem count_matches_eq_scan_length_example :
    count_matches (fun _ _ => false) ⟨[], [("d", [("a", [1]), ("ab", [2]), ("b", [3])])]⟩
        "d" (.pfx "a") =
      (scan_paginated (fun _ _ => false) ⟨[], [("d", [("a", [1]), ("ab", [2]), ("b", [3])])]⟩
        "d" (.pfx "a") 0 100).map List.length :=
  count_matches_eq_scan_length (fun _ _ => false)
    ⟨[], [("d", [("a", [1]), ("ab", [2]), ("b", [3])])]⟩ "d" (.pfx "a") 100
    (fun sp h => by
      have hsp : [("a", [1]), ("ab", [2]), ("b", [3])] = sp := Except.ok.inj h
      rw [← hsp]
      decide)

theorem except_bind_ok {α β : Type} (a : α) (f : α → Except String β) :
    (Except.ok a >>= f) = f a := rfl

theorem b64Val_b64Alpha : ∀ n, n < 64 → b64Val (b64Alpha n) = some n := by decide

theorem b64Alpha_ne_eq : ∀ n, n < 64 → b64Alpha n ≠ '=' := by decide

theorem b64_decode_encode : ∀ (bs : List Nat), (∀ b ∈ bs, b < 256) →
    b64Decode (b64Encode bs) = .ok bs
  | [], _ => rfl
  | [a], h => by
    have ha : a < 256 := h a (by simp)
    have h1 : b64Val (b64Alpha (a / 4)) = some (a / 4) := b64Val_b64Alpha _ (by omega)
    have h2 : b64Val (b64Alpha (a % 4 * 16)) = some (a % 4 * 16) :=
      b64Val_b64Alpha _ (by omega)
    have h3 : a % 4 * 16 % 16 = 0 := by omega
    have h4 : a / 4 * 4 + a % 4 * 16 / 16 = a := by omega
    simp only [b64Encode, b64Decode, h1, h2]
    simp [h3, h4]
    omega
  | [a, b], h => by
    have ha : a < 256 := h a (by simp)
    have hb : b < 256 := h b (by simp)
    have h1 : b64Val (b64Alpha (a / 4)) = some (a / 4) := b64Val_b64Alpha _ (by omega)
    have h2 : b64Val (b64Alpha (a % 4 * 16 + b / 16)) = some (a % 4 * 16 + b / 16) :=
      b64Val_b64Alpha _ (by omega)
    have h3 : b64Val (b64Alpha (b % 16 * 4)) = some (b % 16 * 4) :=
      b64Val_b64Alpha _ (by omega)
    have hne : b64Alpha (b % 16 * 4) ≠ '=' := b64Alpha_ne_eq _ (by omega)
    have h4 : b % 16 * 4 % 4 = 0 := by omega
    have h5 : a / 4 * 4 + (a % 4 * 16 + b / 16) / 16 = a := by omega
    have h6 : (a % 4 * 16 + b / 16) % 16 * 16 + b % 16 * 4 / 4 = b := by omega
    simp only [b64Encode, b64Decode, h1, h2, h3]
    simp [hne, h4, h5, h6]
    omega
  | a :: b :: c :: rest, h => by
    have ha : a < 256 := h a (by simp)
    have hb : b < 256 := h b (by simp)
    have hc : c < 256 := h c (by simp)
    have hrest : ∀ x ∈ rest, x < 256 := fun x hx => h x (by simp [hx])
    have h1 : b64Val (b64Alpha (a / 4)) = some (a / 4) := b64Val_b64Alpha _ (by omega)
    have h2 : b64Val (b64Alpha (a % 4 * 16 + b / 16)) = some (a % 4 * 16 + b / 16) :=
      b64Val_b64Alpha _ (by omega)
    have h3 : b64Val (b64Alpha (b % 16 * 4 + c / 64)) = some (b % 16 * 4 + c / 64) :=
      b64Val_b64Alpha _ (by omega)
    have h4 : b64Val (b64Alpha (c % 64)) = some (c % 64) := b64Val_b64Alpha _ (by omega)
    have hne3 : b64Alpha (b % 16 * 4 + c / 64) ≠ '=' := b64Alpha_ne_eq _ (by omega)
    have hne4 : b64Alpha (c % 64) ≠ '=' := b64Alpha_ne_eq _ (by omega)
    have ih := b64_decode_encode rest hrest
    have h5 : a / 4 * 4 + (a % 4 * 16 + b / 16) / 16 = a := by omega
    have h6 : (a % 4 * 16 + b / 16) % 16 * 16 + (b % 16 * 4 + c / 64) / 4 = b := by omega
    have h7 : (b % 16 * 4 + c / 64) % 4 * 64 + c % 64 = c := by omega
    simp only [b64Encode, b64Decode, h1, h2, h3, h4]
    simp [hne3, hne4, ih, h5, h6, h7]
    rfl

theorem spacePut_append_of_forall_lt : ∀ (sp : Space) (k : String) (v : Bytes),
    (∀ q ∈ sp, strLt q.1 k = true) → spacePut sp k v = sp ++ [(k, v)]
  | [], k, v, _ => rfl
  | (k1, v1) :: rest, k, v, h => by
    have h1 : strLt k1 k = true := h (k1, v1) (by simp)
    have h2 : strLt k k1 = false := strLt_asymm h1
    have h3 : k ≠ k1 := by
      intro he
      rw [he] at h1
      rw [strLt_irrefl] at h1
      cases h1
    rw [spacePut, if_neg (by simp [h2]), if_neg h3,
      spacePut_append_of_forall_lt rest k v (fun q hq => h q (by simp [hq]))]
    rfl

theorem import_json_encoded (db : String) :
    ∀ (sp acc : Space) (s : UndoStack),
      (acc ++ sp).Pairwise (fun a b => strLt a.1 b.1 = true) →
      (∀ q ∈ sp, ∀ x ∈ q.2, x < 256) →
      ∃ s1, commands.import_json ⟨[], [(db, acc)]⟩ s db
          (sp.map (fun kv => (kv.1, String.mk (b64Encode kv.2)))) =
        .ok (⟨[], [(db, acc ++ sp)]⟩, s1)
  | [], acc, s, _, _ => ⟨s, by simp [commands.import_json]⟩
  | (k, v) :: rest, acc, s, hwf, hb => by
    have hdec : b64Decode (b64Encode v) = .ok v :=
      b64_decode_encode v (fun x hx => hb (k, v) (by simp) x hx)
    have hputs : spacePut acc k v = acc ++ [(k, v)] := by
      apply spacePut_append_of_forall_lt
      intro q hq
      exact (List.pairwise_append.mp hwf).2.2 q hq (k, v) (by simp)
    have hwf2 : ((acc ++ [(k, v)]) ++ rest).Pairwise (fun a b => strLt a.1 b.1 = true) := by
      simpa [List.append_assoc] using hwf
    have hb2 : ∀ q ∈ rest, ∀ x ∈ q.2, x < 256 := fun q hq => hb q (by simp [hq])
    obtain ⟨s1, hs1⟩ := import_json_encoded db rest (acc ++ [(k, v)])
      (s.push (.put db k (spaceGet acc k) v)) hwf2 hb2
    refine ⟨s1, ?_⟩
    rw [show ((k, v) :: rest).map (fun kv => (kv.1, String.mk (b64Encode kv.2))) =
      (k, String.mk (b64Encode v)) ::
        rest.map (fun kv => (kv.1, String.mk (b64Encode kv.2))) from rfl]
    rw [commands.import_json]
    rw [show (String.mk (b64Encode v)).data = b64Encode v from rfl, hdec, except_bind_ok]
    rw [show (kv.get (⟨[], [(db, acc)]⟩ : Env) db k) = .ok (spaceGet acc k) from by
      simp [kv.get, envGetDb]]
    rw [except_bind_ok]
    rw [show kv.put ⟨[], [(db, acc)]⟩ db k v = ⟨[], [(db, acc ++ [(k, v)])]⟩ from by
      simp [kv.put, envGetDb, envSetDb, hputs]]
    rw [List.append_assoc] at hs1
    exact hs1

theorem export_json_eq (e : Env) (db : String) (sp : Space)
    (hdb : db ≠ "(unnamed)") (he : envGetDb e.named db = some sp)
    (hlen : sp.length ≤ usizeMax) :
    commands.export_json e db =
      .ok (sp.map (fun kv => (kv.1, String.mk (b64Encode kv.2)))) := by
  unfold commands.export_json list_entries list_entries_paginated
  rw [if_neg hdb, he]
  show Except.ok ((lepLoop 0 usizeMax 0 [] sp).map
    (fun kv => (kv.1, String.mk (b64Encode kv.2)))) = _
  rw [lepLoop_eq]
  simp [List.take_of_length_le hlen]

/-- C1 counterexample: the tabular (CSV) codec of `src/db/io.rs` does not
round-trip arbitrary bytes.  Exporting the space `{"k" ↦ [0xFF]}` writes the
value through `String::from_utf8_lossy`, so importing the produced stream
into an empty space yields `{"k" ↦ [0xEF, 0xBF, 0xBD]}` (the UTF-8 bytes of
U+FFFD), not the original multiset. -/
theorem csv_lossy_round_trip_fails :
    ((dbio.export_csv ⟨[], [("data", [("k", [255])])]⟩ "data").bind
      (fun recs => (dbio.import_csv ⟨[], [("data", [])]⟩ "data" recs).map
        (fun r => envGetDb r.1.named "data"))) = .ok (some [("k", [239, 191, 189])]) ∧
    ([("k", [239, 191, 189])] : Space) ≠ [("k", [255])] := by
  constructor
  · simp [dbio.export_csv, dbio.import_csv, dbio.importLoop, envGetDb, envSetDb, kv.put,
      utf8Lossy, utf8Step, utf8Encode, utf8EncodeChar, spacePut, Except.bind, Except.map]
  · decide

/-- C1 as amended: the structured-text (JSON) codec of `src/commands.rs`
(base64-encoded values) does round-trip: for every named space (addressed by
a non-reserved name) with arbitrary byte-sequence values, exporting and
importing the record stream into an empty space reproduces exactly the
original entries.  The tabular codec of `src/db/io.rs`, cited by the claim,
does not (see the counterexample); `src/commands.rs` also offers a lossless
base64 CSV codec of the same record shape. -/
theorem json_export_import_round_trip (db : String) (e : Env) (sp : Space)
    (hdb : db ≠ "(unnamed)") (he : envGetDb e.named db = some sp)
    (hwf : SpaceWF sp)
    (hb : ∀ q ∈ sp, ∀ x ∈ q.2, x < 256)
    (hlen : sp.length ≤ usizeMax) :
    ((commands.export_json e db).bind (fun items =>
      (commands.import_json ⟨[], [(db, [])]⟩ ⟨[], 0⟩ db items).map
        (fun r => envGetDb r.1.named db))) = .ok (some sp) := by
  rw [export_json_eq e db sp hdb he hlen]
  obtain ⟨s1, hs1⟩ := import_json_encoded db sp [] ⟨[], 0⟩ (by simpa using hwf) hb
  show (commands.import_json ⟨[], [(db, [])]⟩ ⟨[], 0⟩ db
    (sp.map (fun kv => (kv.1, String.mk (b64Encode kv.2))))).map
      (fun r => envGetDb r.1.named db) = .ok (some sp)
  rw [show ((⟨[], [(db, [])]⟩ : Env)) = ⟨[], [(db, ([] : Space))]⟩ from rfl, hs1]
  simp [Except.map, envGetDb]

/-- C1 witness for the amended statement: a concrete space containing a
non-UTF-8 value survives the JSON export/import cycle. -/
theorem json_export_import_round_trip_example :
    ((commands.export_json ⟨[], [("data", [("a", [0, 255]), ("b", [10])])]⟩ "data").bind
      (fun items =>
        (commands.import_json ⟨[], [("data", [])]⟩ ⟨[], 0⟩ "data" items).map
          (fun r => envGetDb r.1.named "data"))) =
      .ok (some [("a", [0, 255]), ("b", [10])]) :=
  json_export_import_round_trip "data" ⟨[], [("data", [("a", [0, 255]), ("b", [10])])]⟩
    [("a", [0, 255]), ("b", [10])] (by decide) rfl (by decide) (by decide) (by decide)

/-- C2 witness for the amended statement, at a concrete failing undo. -/
theorem undo_failure_decrements_cursor_example :
    ((⟨[.del "x" "k" none, .put "miss" "k" none [2]], 2⟩ : UndoStack).undo ⟨[], []⟩).1.pos =
        2 - 1 ∧
    ((⟨[.del "x" "k" none, .put "miss" "k" none [2]], 2⟩ : UndoStack).undo ⟨[], []⟩).1.ops =
        [.del "x" "k" none, .put "miss" "k" none [2]] ∧
    0 < 2 :=
  undo_failure_decrements_cursor ⟨[.del "x" "k" none, .put "miss" "k" none [2]], 2⟩
    ⟨[], []⟩ "database not found" rfl

/-! ### Space-level lemmas for the undo/redo development -/

theorem spaceGet_some_mem : ∀ {sp : Space} {k : String} {v : Bytes},
    spaceGet sp k = some v → (k, v) ∈ sp
  | [], _, _, h => by cases h
  | (k1, v1) :: rest, k, v, h => by
    by_cases hk : k = k1
    · subst hk
      simp [spaceGet] at h
      simp [h]
    · simp only [spaceGet, hk, if_false] at h
      exact List.mem_cons_of_mem _ (spaceGet_some_mem h)

theorem mem_spacePut : ∀ {sp : Space} {k : String} {v : Bytes} {q : String × Bytes},
    q ∈ spacePut sp k v → q = (k, v) ∨ q ∈ sp
  | [], k, v, q, h => by simpa [spacePut] using h
  | (k1, v1) :: rest, k, v, q, h => by
    by_cases h1 : strLt k k1 = true
    · simp only [spacePut, h1, if_pos] at h
      rcases List.mem_cons.mp h with h2 | h2
      · exact Or.inl h2
      · exact Or.inr h2
    · by_cases h2 : k = k1
      · subst h2
        rw [show spacePut ((k, v1) :: rest) k v = (k, v) :: rest from by
          simp [spacePut, strLt_irrefl]] at h
        rcases List.mem_cons.mp h with h3 | h3
        · exact Or.inl h3
        · exact Or.inr (List.mem_cons_of_mem _ h3)
      · simp only [spacePut, h1, h2, if_neg, Bool.false_eq_true, if_false] at h
        rcases List.mem_cons.mp h with h3 | h3
        · exact Or.inr (by simp [h3])
        · rcases mem_spacePut h3 with h4 | h4
          · exact Or.inl h4
          · exact Or.inr (List.mem_cons_of_mem _ h4)

theorem mem_spaceDel : ∀ {sp : Space} {k : String} {q : String × Bytes},
    q ∈ spaceDel sp k → q ∈ sp
  | [], _, _, h => by cases h
  | (k1, v1) :: rest, k, q, h => by
    by_cases hk : k = k1
    · simp only [spaceDel, hk, if_pos] at h
      exact List.mem_cons_of_mem _ h
    · simp only [spaceDel, hk, if_neg, if_false] at h
      rcases List.mem_cons.mp h with h2 | h2
      · simp [h2]
      · exact List.mem_cons_of_mem _ (mem_spaceDel h2)

theorem spacePut_put_same : ∀ (sp : Space) (k : String) (w v : Bytes),
    spacePut (spacePut sp k w) k v = spacePut sp k v
  | [], k, w, v => by simp [spacePut, strLt_irrefl]
  | (k1, v1) :: rest, k, w, v => by
    by_cases h1 : strLt k k1 = true
    · simp [spacePut, h1, strLt_irrefl]
    · by_cases h2 : k = k1
      · subst h2
        simp [spacePut, h1, strLt_irrefl]
      · simp [spacePut, h1, h2, spacePut_put_same rest k w v]

theorem spaceDel_spacePut_absent : ∀ (sp : Space) (k : String) (v : Bytes),
    spaceGet sp k = none → spaceDel (spacePut sp k v) k = sp
  | [], k, v, _ => by simp [spacePut, spaceDel]
  | (k1, v1) :: rest, k, v, h => by
    by_cases hk : k = k1
    · subst hk
      simp [spaceGet] at h
    · simp only [spaceGet, hk, if_false] at h
      by_cases h1 : strLt k k1 = true
      · simp [spacePut, h1, spaceDel, hk]
      · simp [spacePut, h1, hk, spaceDel, spaceDel_spacePut_absent rest k v h]

theorem spaceDel_absent : ∀ (sp : Space) (k : String),
    spaceGet sp k = none → spaceDel sp k = sp
  | [], _, _ => rfl
  | (k1, v1) :: rest, k, h => by
    by_cases hk : k = k1
    · subst hk
      simp [spaceGet] at h
    · simp only [spaceGet, hk, if_false] at h
      simp [spaceDel, hk, spaceDel_absent rest k h]

theorem spacePut_cons_of_forall_lt : ∀ (sp : Space) (k : String) (v : Bytes),
    (∀ q ∈ sp, strLt k q.1 = true) → spacePut sp k v = (k, v) :: sp
  | [], k, v, _ => rfl
  | (k1, v1) :: rest, k, v, h => by
    have h1 : strLt k k1 = true := h (k1, v1) (by simp)
    simp [spacePut, h1]

theorem spacePut_get_id : ∀ (sp : Space) (k : String) (v : Bytes),
    SpaceWF sp → spaceGet sp k = some v → spacePut sp k v = sp
  | [], _, _, _, h => by cases h
  | (k1, v1) :: rest, k, v, hwf, h => by
    rcases List.pairwise_cons.mp hwf with ⟨hhead, htail⟩
    by_cases hk : k = k1
    · subst hk
      simp [spaceGet] at h
      simp [spacePut, strLt_irrefl, h]
    · simp only [spaceGet, hk, if_false] at h
      have hmem : (k, v) ∈ rest := spaceGet_some_mem h
      have h1 : strLt k1 k = true := hhead (k, v) hmem
      have h2 : strLt k k1 = false := strLt_asymm h1
      simp [spacePut, h2, hk, spacePut_get_id rest k v htail h]

theorem spacePut_del_restore : ∀ (sp : Space) (k : String) (v : Bytes),
    SpaceWF sp → spaceGet sp k = some v → spacePut (spaceDel sp k) k v = sp
  | [], _, _, _, h => by cases h
  | (k1, v1) :: rest, k, v, hwf, h => by
    rcases List.pairwise_cons.mp hwf with ⟨hhead, htail⟩
    by_cases hk : k = k1
    · subst hk
      have hv : v1 = v := by simpa [spaceGet] using h
      subst hv
      rw [show spaceDel ((k, v1) :: rest) k = rest from by simp [spaceDel]]
      exact spacePut_cons_of_forall_lt rest k v1 (fun q hq => hhead q hq)
    · simp only [spaceGet, hk, if_false] at h
      have hmem : (k, v) ∈ rest := spaceGet_some_mem h
      have h1 : strLt k1 k = true := hhead (k, v) hmem
      have h2 : strLt k k1 = false := strLt_asymm h1
      simp [spaceDel, hk, spacePut, h2, spacePut_del_restore rest k v htail h]

theorem SpaceWF_put : ∀ (sp : Space) (k : String) (v : Bytes),
    SpaceWF sp → SpaceWF (spacePut sp k v)
  | [], k, v, _ => by simp [SpaceWF, spacePut]
  | (k1, v1) :: rest, k, v, hwf => by
    rcases List.pairwise_cons.mp hwf with ⟨hhead, htail⟩
    by_cases h1 : strLt k k1 = true
    · rw [show spacePut ((k1, v1) :: rest) k v = (k, v) :: (k1, v1) :: rest from by
        simp [spacePut, h1]]
      refine List.pairwise_cons.mpr ⟨?_, hwf⟩
      intro q hq
      rcases List.mem_cons.mp hq with h2 | h2
      · simpa [h2] using h1
      · exact strLt_trans h1 (hhead q h2)
    · by_cases h2 : k = k1
      · subst h2
        rw [show spacePut ((k, v1) :: rest) k v = (k, v) :: rest from by
          simp [spacePut, h1]]
        exact List.pairwise_cons.mpr ⟨hhead, htail⟩
      · rw [show spacePut ((k1, v1) :: rest) k v = (k1, v1) :: spacePut rest k v from by
          simp [spacePut, h1, h2]]
        refine List.pairwise_cons.mpr ⟨?_, SpaceWF_put rest k v htail⟩
        intro q hq
        rcases mem_spacePut hq with h3 | h3
        · rw [h3]
          show strLt k1 k = true
          exact strLt_of_not_lt_of_ne (by simpa using h1) h2
        · exact hhead q h3

theorem SpaceWF_del : ∀ (sp : Space) (k : String), SpaceWF sp → SpaceWF (spaceDel sp k)
  | [], _, _ => by simp [SpaceWF, spaceDel]
  | (k1, v1) :: rest, k, hwf => by
    rcases List.pairwise_cons.mp hwf with ⟨hhead, htail⟩
    by_cases hk : k = k1
    · simpa [spaceDel, hk] using htail
    · rw [show spaceDel ((k1, v1) :: rest) k = (k1, v1) :: spaceDel rest k from by
        simp [spaceDel, hk]]
      refine List.pairwise_cons.mpr ⟨?_, SpaceWF_del rest k htail⟩
      intro q hq
      exact hhead q (mem_spaceDel hq)

/-! ### Catalog-level lemmas -/

theorem envGetDb_setDb_self : ∀ (l : List (String × Space)) (d : String) (sp : Space),
    envGetDb (envSetDb l d sp) d = some sp
  | [], d, sp => by simp [envSetDb, envGetDb]
  | (n1, sp1) :: rest, d, sp => by
    by_cases hd : d = n1
    · simp [envSetDb, hd, envGetDb]
    · simp [envSetDb, hd, envGetDb, envGetDb_setDb_self rest d sp]

theorem envGetDb_setDb_other : ∀ (l : List (String × Space)) (d : String) (sp : Space)
    (d2 : String), d2 ≠ d → envGetDb (envSetDb l d sp) d2 = envGetDb l d2
  | [], d, sp, d2, h => by simp [envSetDb, envGetDb, h]
  | (n1, sp1) :: rest, d, sp, d2, h => by
    by_cases hd : d = n1
    · subst hd
      simp [envSetDb, envGetDb, h]
    · by_cases hd2 : d2 = n1
      · simp [envSetDb, hd, envGetDb, hd2]
      · simp [envSetDb, hd, envGetDb, hd2, envGetDb_setDb_other rest d sp d2 h]

theorem map_fst_setDb_present : ∀ (l : List (String × Space)) (d : String) (sp : Space),
    envGetDb l d ≠ none → (envSetDb l d sp).map Prod.fst = l.map Prod.fst
  | [], d, sp, h => by simp [envGetDb] at h
  | (n1, sp1) :: rest, d, sp, h => by
    by_cases hd : d = n1
    · simp [envSetDb, hd]
    · simp only [envGetDb, hd, if_false] at h
      simp [envSetDb, hd, map_fst_setDb_present rest d sp h]

theorem mem_envSetDb : ∀ {l : List (String × Space)} {d : String} {sp : Space}
    {q : String × Space}, q ∈ envSetDb l d sp → q = (d, sp) ∨ q ∈ l
  | [], d, sp, q, h => by simpa [envSetDb] using h
  | (n1, sp1) :: rest, d, sp, q, h => by
    by_cases hd : d = n1
    · simp only [envSetDb, hd, if_pos] at h
      rcases List.mem_cons.mp h with h2 | h2
      · exact Or.inl (by simp [h2, hd])
      · exact Or.inr (List.mem_cons_of_mem _ h2)
    · simp only [envSetDb, hd, if_neg, if_false] at h
      rcases List.mem_cons.mp h with h2 | h2
      · exact Or.inr (by simp [h2])
      · rcases mem_envSetDb h2 with h3 | h3
        · exact Or.inl h3
        · exact Or.inr (List.mem_cons_of_mem _ h3)

theorem envGetDb_none_iff : ∀ (l : List (String × Space)) (d : String),
    envGetDb l d = none ↔ d ∉ l.map Prod.fst
  | [], d => by simp [envGetDb]
  | (n1, sp1) :: rest, d => by
    by_cases hd : d = n1
    · simp [envGetDb, hd]
    · simp [envGetDb, hd, envGetDb_none_iff rest d]

theorem envSetDb_id : ∀ (l : List (String × Space)) (d : String) (sp : Space),
    envGetDb l d = some sp → envSetDb l d sp = l
  | [], d, sp, h => by cases h
  | (n1, sp1) :: rest, d, sp, h => by
    by_cases hd : d = n1
    · subst hd
      simp [envGetDb] at h
      simp [envSetDb, h]
    · simp only [envGetDb, hd, if_false] at h
      simp [envSetDb, hd, envSetDb_id rest d sp h]

theorem envGetDb_append_of_none : ∀ (l1 l2 : List (String × Space)) (d : String),
    envGetDb l1 d = none → envGetDb (l1 ++ l2) d = envGetDb l2 d
  | [], l2, d, _ => rfl
  | (n1, sp1) :: rest, l2, d, h => by
    by_cases hd : d = n1
    · simp [envGetDb, hd] at h
    · simp only [envGetDb, hd, if_false] at h
      simp [envGetDb, hd, envGetDb_append_of_none rest l2 d h]

theorem envGetDb_append_of_some : ∀ (l1 l2 : List (String × Space)) (d : String)
    (sp : Space), envGetDb l1 d = some sp → envGetDb (l1 ++ l2) d = some sp
  | [], l2, d, sp, h => by cases h
  | (n1, sp1) :: rest, l2, d, sp, h => by
    by_cases hd : d = n1
    · simp [envGetDb, hd] at h ⊢
      exact h
    · simp only [envGetDb, hd, if_false] at h
      simp [envGetDb, hd, envGetDb_append_of_some rest l2 d sp h]

theorem envGetDb_ne_none_of_mem : ∀ (l : List (String × Space)) (d : String),
    d ∈ l.map Prod.fst → envGetDb l d ≠ none := by
  intro l d h
  intro hn
  exact (envGetDb_none_iff l d).mp hn h

theorem assoc_ext : ∀ (l1 l2 : List (String × Space)),
    l1.map Prod.fst = l2.map Prod.fst → (l2.map Prod.fst).Nodup →
    (∀ d, envGetDb l1 d = envGetDb l2 d) → l1 = l2
  | [], [], _, _, _ => rfl
  | [], (n, sp) :: r, hm, _, _ => by cases hm
  | (n, sp) :: r, [], hm, _, _ => by cases hm
  | (n1, sp1) :: r1, (n2, sp2) :: r2, hm, hnd, hpt => by
    simp only [List.map_cons, List.cons.injEq] at hm
    obtain ⟨hn, hr⟩ := hm
    subst hn
    have hsp : sp1 = sp2 := by
      have := hpt n1
      simpa [envGetDb] using this
    subst hsp
    rcases List.nodup_cons.mp hnd with ⟨hn2, hnd2⟩
    have hpt2 : ∀ d, envGetDb r1 d = envGetDb r2 d := by
      intro d
      by_cases hd : d = n1
      · subst hd
        have e1 : envGetDb r1 d = none := (envGetDb_none_iff r1 d).mpr (hr ▸ hn2)
        have e2 : envGetDb r2 d = none := (envGetDb_none_iff r2 d).mpr hn2
        rw [e1, e2]
      · have := hpt d
        simpa [envGetDb, hd] using this
    rw [assoc_ext r1 r2 hr hnd2 hpt2]

/-! ### Lemmas about the kv layer -/

theorem kvput_anon (e : Env) (d k : String) (v : Bytes) : (kv.put e d k v).anon = e.anon := by
  unfold kv.put
  cases envGetDb e.named d <;> rfl

theorem kvput_lookup_self (e : Env) (d k : String) (v : Bytes) :
    envGetDb (kv.put e d k v).named d =
      some (spacePut ((envGetDb e.named d).getD []) k v) := by
  unfold kv.put
  cases hs : envGetDb e.named d with
  | none =>
    show envGetDb (e.named ++ [(d, spacePut [] k v)]) d = _
    rw [envGetDb_append_of_none _ _ _ hs]
    simp [envGetDb]
  | some sp0 =>
    show envGetDb (envSetDb e.named d (spacePut sp0 k v)) d = _
    rw [envGetDb_setDb_self]
    rfl

theorem kvput_lookup_other (e : Env) (d k : String) (v : Bytes) (d2 : String)
    (h : d2 ≠ d) : envGetDb (kv.put e d k v).named d2 = envGetDb e.named d2 := by
  unfold kv.put
  cases hs : envGetDb e.named d with
  | none =>
    show envGetDb (e.named ++ [(d, spacePut [] k v)]) d2 = _
    cases hs2 : envGetDb e.named d2 with
    | none =>
      rw [envGetDb_append_of_none _ _ _ hs2]
      simp [envGetDb, h]
    | some sp2 => exact envGetDb_append_of_some _ _ _ _ hs2
  | some sp0 =>
    show envGetDb (envSetDb e.named d (spacePut sp0 k v)) d2 = _
    exact envGetDb_setDb_other _ _ _ _ h

theorem kvput_frame_present (e : Env) (d k : String) (v : Bytes)
    (h : envGetDb e.named d ≠ none) :
    (kv.put e d k v).named.map Prod.fst = e.named.map Prod.fst := by
  unfold kv.put
  cases hs : envGetDb e.named d with
  | none => exact absurd hs h
  | some sp0 =>
    show (envSetDb e.named d (spacePut sp0 k v)).map Prod.fst = _
    exact map_fst_setDb_present _ _ _ (by rw [hs]; simp)

theorem kvput_frame_absent (e : Env) (d k : String) (v : Bytes)
    (h : envGetDb e.named d = none) :
    (kv.put e d k v).named.map Prod.fst = e.named.map Prod.fst ++ [d] := by
  unfold kv.put
  rw [h]
  show (e.named ++ [(d, spacePut [] k v)]).map Prod.fst = _
  simp

theorem kvput_pres (e : Env) (d k : String) (v : Bytes) (x : String)
    (h : envGetDb e.named x ≠ none) : envGetDb (kv.put e d k v).named x ≠ none := by
  by_cases hx : x = d
  · subst hx
    rw [kvput_lookup_self]
    simp
  · rw [kvput_lookup_other e d k v x hx]
    exact h

theorem kv_delete_ok_elim (e : Env) (d k : String) (e1 : Env)
    (h : kv.delete e d k = .ok e1) :
    ∃ sp0, envGetDb e.named d = some sp0 ∧
      e1 = { e with named := envSetDb e.named d (spaceDel sp0 k) } := by
  unfold kv.delete at h
  cases hs : envGetDb e.named d with
  | none => rw [hs] at h; cases h
  | some sp0 =>
    rw [hs] at h
    exact ⟨sp0, rfl, (Except.ok.inj h).symm⟩

theorem kv_delete_of_some (e : Env) (d k : String) (sp0 : Space)
    (h : envGetDb e.named d = some sp0) :
    kv.delete e d k = .ok { e with named := envSetDb e.named d (spaceDel sp0 k) } := by
  unfold kv.delete
  rw [h]

theorem EnvWF_put (e : Env) (d k : String) (v : Bytes) (hwf : EnvWF e) :
    EnvWF (kv.put e d k v) := by
  obtain ⟨ha, hsp, hnd⟩ := hwf
  refine ⟨by rw [kvput_anon]; exact ha, ?_, ?_⟩
  · intro p hp
    unfold kv.put at hp
    cases hs : envGetDb e.named d with
    | none =>
      rw [hs] at hp
      rcases List.mem_append.mp hp with h2 | h2
      · exact hsp p h2
      · have : p = (d, spacePut [] k v) := by simpa using h2
        rw [this]
        exact SpaceWF_put [] k v (by simp [SpaceWF])
    | some sp0 =>
      rw [hs] at hp
      rcases mem_envSetDb hp with h2 | h2
      · rw [h2]
        exact SpaceWF_put sp0 k v (hsp (d, sp0) (envGetDb_mem hs))
      · exact hsp p h2
  · cases hs : envGetDb e.named d with
    | none =>
      rw [kvput_frame_absent e d k v hs]
      simp only [List.nodup_append]
      exact ⟨hnd, by simp, by simpa using (envGetDb_none_iff _ _).mp hs⟩
    | some sp0 =>
      rw [kvput_frame_present e d k v (by rw [hs]; simp)]
      exact hnd

theorem EnvWF_del (e : Env) (d k : String) (e1 : Env) (hwf : EnvWF e)
    (h : kv.delete e d k = .ok e1) : EnvWF e1 := by
  obtain ⟨sp0, hs, he1⟩ := kv_delete_ok_elim e d k e1 h
  obtain ⟨ha, hsp, hnd⟩ := hwf
  subst he1
  refine ⟨ha, ?_, ?_⟩
  · intro p hp
    rcases mem_envSetDb hp with h2 | h2
    · rw [h2]
      exact SpaceWF_del sp0 k (hsp (d, sp0) (envGetDb_mem hs))
    · exact hsp p h2
  · show (envSetDb e.named d (spaceDel sp0 k)).map Prod.fst |>.Nodup
    rw [map_fst_setDb_present _ _ _ (by rw [hs]; simp)]
    exact hnd

theorem approx_refl (e : Env) : EnvApprox e e := by
  refine ⟨rfl, ?_⟩
  intro d
  exact ⟨fun h => Or.inl h, fun sp h => h⟩

theorem approx_ext (t e : Env) (happ : EnvApprox t e)
    (hframe : t.named.map Prod.fst = e.named.map Prod.fst)
    (hnd : (e.named.map Prod.fst).Nodup) : t = e := by
  obtain ⟨ha, hd⟩ := happ
  have hnamed : t.named = e.named := by
    apply assoc_ext t.named e.named hframe hnd
    intro d
    cases hs : envGetDb e.named d with
    | none =>
      rcases (hd d).1 hs with h2 | h2
      · rw [h2]
      · exfalso
        have hmem : d ∈ t.named.map Prod.fst := by
          by_contra hmem
          rw [(envGetDb_none_iff _ _).mpr hmem] at h2
          cases h2
        rw [hframe] at hmem
        exact envGetDb_ne_none_of_mem e.named d hmem hs
    | some sp => rw [(hd d).2 sp hs]
  cases t with
  | mk ta tn =>
    cases e with
    | mk ea en =>
      simp only at ha hnamed
      rw [ha, hnamed]

/-! ### Step lemmas: applying one inverse / one replay preserves the
simulation -/

theorem undoStepPut (e0 t1 : Env) (d k : String) (v : Bytes)
    (hwf : EnvWF e0) (happ : EnvApprox t1 (kv.put e0 d k v)) :
    ∃ t0, applyInverse t1 (.put d k (getVal e0 d k) v) = .ok t0 ∧ EnvApprox t0 e0 ∧
      t0.named.map Prod.fst = t1.named.map Prod.fst ∧ t0.anon = t1.anon := by
  obtain ⟨hanon, hlook⟩ := happ
  have hself := kvput_lookup_self e0 d k v
  have ht1d : envGetDb t1.named d =
      some (spacePut ((envGetDb e0.named d).getD []) k v) :=
    (hlook d).2 _ hself
  have ht1dne : envGetDb t1.named d ≠ none := by rw [ht1d]; simp
  cases hs : envGetDb e0.named d with
  | some sp0 =>
    have hwf0 : SpaceWF sp0 := hwf.2.1 (d, sp0) (envGetDb_mem hs)
    rw [hs] at ht1d
    have hgv : getVal e0 d k = spaceGet sp0 k := by unfold getVal; rw [hs]
    cases hg : spaceGet sp0 k with
    | some w =>
      refine ⟨kv.put t1 d k w, by rw [hgv, hg]; rfl, ⟨?_, ?_⟩, ?_, kvput_anon _ _ _ _⟩
      · rw [kvput_anon, hanon, kvput_anon]
      · intro d2
        by_cases hd2 : d2 = d
        · subst hd2
          refine ⟨?_, ?_⟩
          · intro hn
            rw [hs] at hn
            cases hn
          · intro sp hsp
            rw [hs, Option.some.injEq] at hsp
            have heq : envGetDb (kv.put t1 d2 k w).named d2 = some sp0 := by
              rw [kvput_lookup_self t1 d2 k w, ht1d]
              show some (spacePut (spacePut sp0 k v) k w) = some sp0
              rw [spacePut_put_same, spacePut_get_id sp0 k w hwf0 hg]
            rw [heq, hsp]
        · constructor
          · intro hn
            have hh := (hlook d2).1 (by rw [kvput_lookup_other e0 d k v d2 hd2]; exact hn)
            rw [kvput_lookup_other t1 d k w d2 hd2]
            exact hh
          · intro sp hsp
            have hh := (hlook d2).2 sp (by rw [kvput_lookup_other e0 d k v d2 hd2]; exact hsp)
            rw [kvput_lookup_other t1 d k w d2 hd2]
            exact hh
      · exact kvput_frame_present t1 d k w ht1dne
    | none =>
      have hdel : spaceDel (spacePut sp0 k v) k = sp0 := spaceDel_spacePut_absent sp0 k v hg
      refine ⟨{ t1 with named := envSetDb t1.named d (spaceDel (spacePut sp0 k v) k) },
        ?_, ⟨hanon.trans (kvput_anon _ _ _ _), ?_⟩,
        map_fst_setDb_present _ _ _ ht1dne, rfl⟩
      · rw [hgv, hg]
        show kv.delete t1 d k = _
        exact kv_delete_of_some t1 d k _ ht1d
      · intro d2
        by_cases hd2 : d2 = d
        · subst hd2
          constructor
          · intro hn
            rw [hs] at hn
            cases hn
          · intro sp hsp
            rw [hs, Option.some.injEq] at hsp
            show envGetDb (envSetDb t1.named d2 (spaceDel (spacePut sp0 k v) k)) d2 = _
            rw [envGetDb_setDb_self, hdel, hsp]
        · constructor
          · intro hn
            have := (hlook d2).1 (by rw [kvput_lookup_other e0 d k v d2 hd2]; exact hn)
            show envGetDb (envSetDb t1.named d _) d2 = none ∨
              envGetDb (envSetDb t1.named d _) d2 = some []
            rwa [envGetDb_setDb_other _ _ _ _ hd2]
          · intro sp hsp
            have := (hlook d2).2 sp (by rw [kvput_lookup_other e0 d k v d2 hd2]; exact hsp)
            show envGetDb (envSetDb t1.named d _) d2 = some sp
            rwa [envGetDb_setDb_other _ _ _ _ hd2]
  | none =>
    rw [hs] at ht1d
    have hgv : getVal e0 d k = none := by unfold getVal; rw [hs]
    have hdel : spaceDel (spacePut [] k v) k = [] := spaceDel_spacePut_absent [] k v rfl
    refine ⟨{ t1 with named := envSetDb t1.named d (spaceDel (spacePut [] k v) k) },
      ?_, ⟨hanon.trans (kvput_anon _ _ _ _), ?_⟩,
      map_fst_setDb_present _ _ _ ht1dne, rfl⟩
    · rw [hgv]
      show kv.delete t1 d k = _
      exact kv_delete_of_some t1 d k _ (by simpa using ht1d)
    · intro d2
      by_cases hd2 : d2 = d
      · subst hd2
        constructor
        · intro _
          refine Or.inr ?_
          show envGetDb (envSetDb t1.named d2 (spaceDel (spacePut [] k v) k)) d2 = some []
          rw [envGetDb_setDb_self, hdel]
        · intro sp hsp
          rw [hs] at hsp
          cases hsp
      · constructor
        · intro hn
          have := (hlook d2).1 (by rw [kvput_lookup_other e0 d k v d2 hd2]; exact hn)
          show envGetDb (envSetDb t1.named d _) d2 = none ∨
            envGetDb (envSetDb t1.named d _) d2 = some []
          rwa [envGetDb_setDb_other _ _ _ _ hd2]
        · intro sp hsp
          have := (hlook d2).2 sp (by rw [kvput_lookup_other e0 d k v d2 hd2]; exact hsp)
          show envGetDb (envSetDb t1.named d _) d2 = some sp
          rwa [envGetDb_setDb_other _ _ _ _ hd2]

theorem undoStepDel (e0 t1 : Env) (d k : String) (sp0 : Space)
    (hwf : EnvWF e0) (hs : envGetDb e0.named d = some sp0)
    (happ : EnvApprox t1 { e0 with named := envSetDb e0.named d (spaceDel sp0 k) }) :
    ∃ t0, applyInverse t1 (.del d k (spaceGet sp0 k)) = .ok t0 ∧ EnvApprox t0 e0 ∧
      t0.named.map Prod.fst = t1.named.map Prod.fst ∧ t0.anon = t1.anon := by
  have hwf0 : SpaceWF sp0 := hwf.2.1 (d, sp0) (envGetDb_mem hs)
  cases hg : spaceGet sp0 k with
  | some w =>
    obtain ⟨hanon, hlook⟩ := happ
    have ht1d : envGetDb t1.named d = some (spaceDel sp0 k) := by
      apply (hlook d).2
      show envGetDb (envSetDb e0.named d (spaceDel sp0 k)) d = _
      rw [envGetDb_setDb_self]
    have ht1dne : envGetDb t1.named d ≠ none := by rw [ht1d]; simp
    refine ⟨kv.put t1 d k w, rfl, ⟨?_, ?_⟩, kvput_frame_present t1 d k w ht1dne,
      kvput_anon _ _ _ _⟩
    · rw [kvput_anon]
      exact hanon
    · intro d2
      by_cases hd2 : d2 = d
      · subst hd2
        refine ⟨?_, ?_⟩
        · intro hn
          rw [hs] at hn
          cases hn
        · intro sp hsp
          rw [hs, Option.some.injEq] at hsp
          have heq : envGetDb (kv.put t1 d2 k w).named d2 = some sp0 := by
            rw [kvput_lookup_self t1 d2 k w, ht1d]
            show some (spacePut (spaceDel sp0 k) k w) = some sp0
            rw [spacePut_del_restore sp0 k w hwf0 hg]
          rw [heq, hsp]
      · have htr : envGetDb { e0 with named := envSetDb e0.named d (spaceDel sp0 k) }.named
            d2 = envGetDb e0.named d2 := by
          show envGetDb (envSetDb e0.named d (spaceDel sp0 k)) d2 = _
          exact envGetDb_setDb_other _ _ _ _ hd2
        constructor
        · intro hn
          have hh := (hlook d2).1 (by rw [htr]; exact hn)
          rw [kvput_lookup_other t1 d k w d2 hd2]
          exact hh
        · intro sp hsp
          have hh := (hlook d2).2 sp (by rw [htr]; exact hsp)
          rw [kvput_lookup_other t1 d k w d2 hd2]
          exact hh
  | none =>
    have hdel : spaceDel sp0 k = sp0 := spaceDel_absent sp0 k hg
    have he1 : ({ e0 with named := envSetDb e0.named d (spaceDel sp0 k) } : Env) = e0 := by
      rw [hdel, envSetDb_id e0.named d sp0 hs]
    rw [he1] at happ
    exact ⟨t1, rfl, happ, rfl, rfl⟩

theorem redoStepPut (e0 t0 : Env) (d k : String) (prev : Option Bytes) (v : Bytes)
    (happ : EnvApprox t0 e0) (hpres : envGetDb t0.named d ≠ none) :
    applyForward t0 (.put d k prev v) = .ok (kv.put t0 d k v) ∧
    EnvApprox (kv.put t0 d k v) (kv.put e0 d k v) ∧
    (kv.put t0 d k v).named.map Prod.fst = t0.named.map Prod.fst ∧
    (kv.put t0 d k v).anon = t0.anon := by
  obtain ⟨hanon, hlook⟩ := happ
  refine ⟨rfl, ⟨?_, ?_⟩, kvput_frame_present t0 d k v hpres, kvput_anon _ _ _ _⟩
  · rw [kvput_anon, kvput_anon]
    exact hanon
  · intro d2
    by_cases hd2 : d2 = d
    · subst hd2
      have hbase : (envGetDb t0.named d2).getD [] = (envGetDb e0.named d2).getD [] := by
        cases hse : envGetDb e0.named d2 with
        | some sp => rw [(hlook d2).2 sp hse]
        | none =>
          rcases (hlook d2).1 hse with h2 | h2
          · exact absurd h2 hpres
          · rw [h2]
            rfl
      refine ⟨?_, ?_⟩
      · intro hn
        rw [kvput_lookup_self] at hn
        cases hn
      · intro sp hsp
        rw [kvput_lookup_self] at hsp
        rw [kvput_lookup_self, hbase]
        exact hsp
    · refine ⟨?_, ?_⟩
      · intro hn
        rw [kvput_lookup_other e0 d k v d2 hd2] at hn
        rw [kvput_lookup_other t0 d k v d2 hd2]
        exact (hlook d2).1 hn
      · intro sp hsp
        rw [kvput_lookup_other e0 d k v d2 hd2] at hsp
        rw [kvput_lookup_other t0 d k v d2 hd2]
        exact (hlook d2).2 sp hsp

theorem redoStepDel (e0 t0 : Env) (d k : String) (prev : Option Bytes) (sp0 : Space)
    (happ : EnvApprox t0 e0) (hs : envGetDb e0.named d = some sp0) :
    applyForward t0 (.del d k prev) =
      .ok { t0 with named := envSetDb t0.named d (spaceDel sp0 k) } ∧
    EnvApprox { t0 with named := envSetDb t0.named d (spaceDel sp0 k) }
      { e0 with named := envSetDb e0.named d (spaceDel sp0 k) } ∧
    (envSetDb t0.named d (spaceDel sp0 k)).map Prod.fst = t0.named.map Prod.fst ∧
    ({ t0 with named := envSetDb t0.named d (spaceDel sp0 k) } : Env).anon = t0.anon := by
  obtain ⟨hanon, hlook⟩ := happ
  have ht0d : envGetDb t0.named d = some sp0 := (hlook d).2 sp0 hs
  refine ⟨?_, ⟨hanon, ?_⟩, map_fst_setDb_present _ _ _ (by rw [ht0d]; simp), rfl⟩
  · show kv.delete t0 d k = _
    exact kv_delete_of_some t0 d k sp0 ht0d
  · intro d2
    by_cases hd2 : d2 = d
    · subst hd2
      refine ⟨?_, ?_⟩
      · intro hn
        rw [show envGetDb ({ e0 with named := envSetDb e0.named d2 (spaceDel sp0 k) } :
          Env).named d2 = some (spaceDel sp0 k) from by
            show envGetDb (envSetDb e0.named d2 (spaceDel sp0 k)) d2 = _
            rw [envGetDb_setDb_self]] at hn
        cases hn
      · intro sp hsp
        show envGetDb (envSetDb t0.named d2 (spaceDel sp0 k)) d2 = some sp
        have hsp2 : spaceDel sp0 k = sp := by
          have := hsp
          rw [show envGetDb ({ e0 with named := envSetDb e0.named d2 (spaceDel sp0 k) } :
            Env).named d2 = some (spaceDel sp0 k) from by
              show envGetDb (envSetDb e0.named d2 (spaceDel sp0 k)) d2 = _
              rw [envGetDb_setDb_self]] at this
          exact Option.some.inj this
        rw [envGetDb_setDb_self, hsp2]
    · have htr1 : envGetDb ({ e0 with named := envSetDb e0.named d (spaceDel sp0 k) } :
          Env).named d2 = envGetDb e0.named d2 := by
        show envGetDb (envSetDb e0.named d (spaceDel sp0 k)) d2 = _
        exact envGetDb_setDb_other _ _ _ _ hd2
      have htr2 : envGetDb ({ t0 with named := envSetDb t0.named d (spaceDel sp0 k) } :
          Env).named d2 = envGetDb t0.named d2 := by
        show envGetDb (envSetDb t0.named d (spaceDel sp0 k)) d2 = _
        exact envGetDb_setDb_other _ _ _ _ hd2
      refine ⟨?_, ?_⟩
      · intro hn
        rw [htr1] at hn
        rw [htr2]
        exact (hlook d2).1 hn
      · intro sp hsp
        rw [htr1] at hsp
        rw [htr2]
        exact (hlook d2).2 sp hsp

/-! ### Facts about mutation runs -/

theorem kv_get_eq (e : Env) (d k : String) : kv.get e d k = .ok (getVal e d k) := by
  unfold kv.get getVal
  cases envGetDb e.named d <;> rfl

theorem kvdel_pres (e : Env) (d k : String) (e1 : Env) (h : kv.delete e d k = .ok e1)
    (x : String) (hx : envGetDb e.named x ≠ none) : envGetDb e1.named x ≠ none := by
  obtain ⟨sp0, hs, he1⟩ := kv_delete_ok_elim e d k e1 h
  subst he1
  by_cases hxd : x = d
  · subst hxd
    show envGetDb (envSetDb e.named x (spaceDel sp0 k)) x ≠ none
    rw [envGetDb_setDb_self]
    simp
  · show envGetDb (envSetDb e.named d (spaceDel sp0 k)) x ≠ none
    rw [envGetDb_setDb_other _ _ _ _ hxd]
    exact hx

theorem kvdel_anon (e : Env) (d k : String) (e1 : Env) (h : kv.delete e d k = .ok e1) :
    e1.anon = e.anon := by
  obtain ⟨sp0, hs, he1⟩ := kv_delete_ok_elim e d k e1 h
  subst he1
  rfl

theorem runMutsE_pres : ∀ (ms : List Mut) (e e1 : Env),
    runMutsE e ms = .ok e1 → ∀ d, envGetDb e.named d ≠ none → envGetDb e1.named d ≠ none
  | [], e, e1, h, d, hd => by
    rw [← Except.ok.inj h]
    exact hd
  | .put db k v :: ms, e, e1, h, d, hd =>
    runMutsE_pres ms (kv.put e db k v) e1 h d (kvput_pres e db k v d hd)
  | .del db k :: ms, e, e1, h, d, hd => by
    rw [runMutsE] at h
    cases hdel : kv.delete e db k with
    | error m => rw [hdel] at h; cases h
    | ok e2 =>
      rw [hdel] at h
      exact runMutsE_pres ms e2 e1 h d (kvdel_pres e db k e2 hdel d hd)

theorem runMutsE_wf : ∀ (ms : List Mut) (e e1 : Env),
    EnvWF e → runMutsE e ms = .ok e1 → EnvWF e1
  | [], e, e1, hwf, h => by
    rw [← Except.ok.inj h]
    exact hwf
  | .put db k v :: ms, e, e1, hwf, h =>
    runMutsE_wf ms (kv.put e db k v) e1 (EnvWF_put e db k v hwf) h
  | .del db k :: ms, e, e1, hwf, h => by
    rw [runMutsE] at h
    cases hdel : kv.delete e db k with
    | error m => rw [hdel] at h; cases h
    | ok e2 =>
      rw [hdel] at h
      exact runMutsE_wf ms e2 e1 (EnvWF_del e db k e2 hwf hdel) h

theorem recsOf_length : ∀ (ms : List Mut) (e e1 : Env),
    runMutsE e ms = .ok e1 → (recsOf e ms).length = ms.length
  | [], _, _, _ => rfl
  | .put db k v :: ms, e, e1, h => by
    rw [recsOf, List.length_cons, recsOf_length ms (kv.put e db k v) e1 h]
    rfl
  | .del db k :: ms, e, e1, h => by
    rw [runMutsE] at h
    cases hdel : kv.delete e db k with
    | error m => rw [hdel] at h; cases h
    | ok e2 =>
      rw [hdel] at h
      rw [recsOf, hdel, List.length_cons, recsOf_length ms e2 e1 h]
      rfl

theorem push_pos_len (s : UndoStack) (op : Op) : (s.push op).pos = (s.push op).ops.length :=
  rfl

theorem push_ops_at_end (s : UndoStack) (op : Op) (hpos : s.pos = s.ops.length) :
    (s.push op).ops = s.ops ++ [op] := by
  unfold UndoStack.push
  rw [hpos]
  simp

theorem commands_put_eq (e : Env) (s : UndoStack) (db k : String) (v : Bytes) :
    commands.put e s db k v =
      .ok (kv.put e db k v, s.push (.put db k (getVal e db k) v)) := by
  unfold commands.put
  rw [kv_get_eq]
  rfl

theorem commands_delete_eq_of_some (e : Env) (s : UndoStack) (db k : String) (sp0 : Space)
    (hs : envGetDb e.named db = some sp0) :
    commands.delete e s db k =
      .ok ({ e with named := envSetDb e.named db (spaceDel sp0 k) },
        s.push (.del db k (getVal e db k))) := by
  unfold commands.delete
  rw [kv_get_eq, except_bind_ok, kv_delete_of_some e db k sp0 hs]
  rfl

theorem commands_delete_error_of_none (e : Env) (s : UndoStack) (db k : String)
    (hs : envGetDb e.named db = none) :
    commands.delete e s db k = .error "database not found" := by
  unfold commands.delete
  rw [kv_get_eq, except_bind_ok]
  rw [show kv.delete e db k = .error "database not found" from by
    unfold kv.delete; rw [hs]]
  rfl

theorem runMuts_spec : ∀ (ms : List Mut) (e : Env) (s : UndoStack) (eN : Env)
    (sN : UndoStack), s.pos = s.ops.length → runMuts e s ms = .ok (eN, sN) →
    runMutsE e ms = .ok eN ∧ sN.ops = s.ops ++ recsOf e ms ∧ sN.pos = sN.ops.length
  | [], e, s, eN, sN, hpos, h => by
    have h2 := Prod.mk.injEq _ _ _ _ ▸ Except.ok.inj h
    refine ⟨by rw [runMutsE, h2.1], ?_, ?_⟩
    · rw [← h2.2]
      simp [recsOf]
    · rw [← h2.2]
      exact hpos
  | .put db k v :: ms, e, s, eN, sN, hpos, h => by
    rw [runMuts] at h
    rw [show runMut e s (.put db k v) = commands.put e s db k v from rfl,
      commands_put_eq, except_bind_ok] at h
    obtain ⟨h1, h2, h3⟩ := runMuts_spec ms (kv.put e db k v)
      (s.push (.put db k (getVal e db k) v)) eN sN (push_pos_len _ _) h
    refine ⟨by rw [runMutsE]; exact h1, ?_, h3⟩
    rw [h2, push_ops_at_end s _ hpos, recsOf]
    simp
  | .del db k :: ms, e, s, eN, sN, hpos, h => by
    rw [runMuts] at h
    cases hs : envGetDb e.named db with
    | none =>
      rw [show runMut e s (.del db k) = commands.delete e s db k from rfl,
        commands_delete_error_of_none e s db k hs] at h
      cases h
    | some sp0 =>
      rw [show runMut e s (.del db k) = commands.delete e s db k from rfl,
        commands_delete_eq_of_some e s db k sp0 hs, except_bind_ok] at h
      obtain ⟨h1, h2, h3⟩ := runMuts_spec ms
        { e with named := envSetDb e.named db (spaceDel sp0 k) }
        (s.push (.del db k (getVal e db k))) eN sN (push_pos_len _ _) h
      refine ⟨?_, ?_, h3⟩
      · rw [runMutsE, kv_delete_of_some e db k sp0 hs]
        exact h1
      · rw [h2, push_ops_at_end s _ hpos, recsOf, kv_delete_of_some e db k sp0 hs]
        simp

theorem undoSteps_succ_right (s : UndoStack) (e : Env) (n : Nat) :
    undoSteps s e (n + 1) =
      match undoSteps s e n with
      | (s1, .ok e1) =>
        match s1.undo e1 with
        | (s2, .ok p) => (s2, .ok p.1)
        | (s2, .error m) => (s2, .error m)
      | r => r := by
  induction n generalizing s e with
  | zero =>
    show (match s.undo e with
      | (s1, Except.ok p) => undoSteps s1 p.1 0
      | (s1, Except.error m) => (s1, Except.error m)) =
      (match s.undo e with
       | (s2, Except.ok p) => (s2, Except.ok p.1)
       | (s2, Except.error m) => (s2, Except.error m))
    rcases hu : s.undo e with ⟨s1, r⟩
    cases r with
    | ok p => rfl
    | error m => rfl
  | succ n ih =>
    show (match s.undo e with
      | (s1, Except.ok p) => undoSteps s1 p.1 (n + 1)
      | (s1, Except.error m) => (s1, Except.error m)) =
      (match undoSteps s e (n + 1) with
       | (s1, Except.ok e1) =>
         match s1.undo e1 with
         | (s2, Except.ok p) => (s2, Except.ok p.1)
         | (s2, Except.error m) => (s2, Except.error m)
       | r => r)
    rw [show undoSteps s e (n + 1) =
      (match s.undo e with
       | (s1, Except.ok p) => undoSteps s1 p.1 n
       | (s1, Except.error m) => (s1, Except.error m)) from by rw [undoSteps]]
    rcases hu : s.undo e with ⟨s1, r⟩
    cases r with
    | ok p =>
      show undoSteps s1 p.1 (n + 1) = _
      rw [ih]
    | error m => rfl

/-! ### Undo and redo phases over a whole run -/

theorem undoPhase : ∀ (ms : List Mut) (e0 eN t : Env) (st : UndoStack) (base : Nat),
    EnvWF e0 →
    runMutsE e0 ms = .ok eN →
    EnvApprox t eN →
    st.pos = base + ms.length →
    (∀ i, i < ms.length → st.ops.get? (base + i) = (recsOf e0 ms).get? i) →
    ∃ t0, undoSteps st t ms.length = (⟨st.ops, base⟩, .ok t0) ∧
      EnvApprox t0 e0 ∧ t0.named.map Prod.fst = t.named.map Prod.fst ∧ t0.anon = t.anon
  | [], e0, eN, t, st, base, hwf, hrun, happ, hpos, hget => by
    have he : e0 = eN := Except.ok.inj hrun
    refine ⟨t, ?_, by rw [he]; exact happ, rfl, rfl⟩
    show (st, (Except.ok t : Except String Env)) = _
    rcases st with ⟨ops, pos⟩
    simp only [List.length_nil, Nat.add_zero] at hpos
    rw [hpos]
  | .put d k v :: ms2, e0, eN, t, st, base, hwf, hrun, happ, hpos, hget => by
    have hrun2 : runMutsE (kv.put e0 d k v) ms2 = .ok eN := by rwa [runMutsE] at hrun
    have hwf1 : EnvWF (kv.put e0 d k v) := EnvWF_put _ _ _ _ hwf
    have hrecs : recsOf e0 (.put d k v :: ms2) =
        .put d k (getVal e0 d k) v :: recsOf (kv.put e0 d k v) ms2 := by rw [recsOf]
    have hget2 : ∀ i, i < ms2.length →
        st.ops.get? (base + 1 + i) = (recsOf (kv.put e0 d k v) ms2).get? i := by
      intro i hi
      have h1 := hget (i + 1) (by simp; omega)
      rw [hrecs] at h1
      rw [show base + 1 + i = base + (i + 1) from by omega]
      exact h1
    obtain ⟨t1, hsteps, happ1, hframe1, hanon1⟩ := undoPhase ms2 (kv.put e0 d k v) eN t st
      (base + 1) hwf1 hrun2 happ (by simp at hpos; omega) hget2
    have hget0 : st.ops.get? base = some (.put d k (getVal e0 d k) v) := by
      have h1 := hget 0 (by simp)
      rw [hrecs] at h1
      simpa using h1
    obtain ⟨t0, hinv, happ0, hframe0, hanon0⟩ := undoStepPut e0 t1 d k v hwf happ1
    have hundo : (⟨st.ops, base + 1⟩ : UndoStack).undo t1 =
        (⟨st.ops, base⟩, .ok (t0, true)) := by
      unfold UndoStack.undo
      rw [if_neg (Nat.succ_ne_zero base)]
      simp only [Nat.add_sub_cancel]
      rw [hget0]; simp only [hinv]
    refine ⟨t0, ?_, happ0, hframe0.trans hframe1, hanon0.trans hanon1⟩
    show undoSteps st t (ms2.length + 1) = _
    rw [undoSteps_succ_right, hsteps]
    show (match (⟨st.ops, base + 1⟩ : UndoStack).undo t1 with
      | (s2, Except.ok p) => (s2, Except.ok p.1)
      | (s2, Except.error m) => (s2, Except.error m)) = _
    rw [hundo]
  | .del d k :: ms2, e0, eN, t, st, base, hwf, hrun, happ, hpos, hget => by
    rw [runMutsE] at hrun
    cases hdel : kv.delete e0 d k with
    | error m => rw [hdel] at hrun; cases hrun
    | ok e1 =>
      rw [hdel] at hrun
      obtain ⟨sp0, hs, he1⟩ := kv_delete_ok_elim e0 d k e1 hdel
      have hwf1 : EnvWF e1 := EnvWF_del e0 d k e1 hwf hdel
      have hgv : getVal e0 d k = spaceGet sp0 k := by unfold getVal; rw [hs]
      have hrecs : recsOf e0 (.del d k :: ms2) =
          .del d k (getVal e0 d k) :: recsOf e1 ms2 := by rw [recsOf, hdel]
      have hget2 : ∀ i, i < ms2.length →
          st.ops.get? (base + 1 + i) = (recsOf e1 ms2).get? i := by
        intro i hi
        have h1 := hget (i + 1) (by simp; omega)
        rw [hrecs] at h1
        rw [show base + 1 + i = base + (i + 1) from by omega]
        exact h1
      obtain ⟨t1, hsteps, happ1, hframe1, hanon1⟩ := undoPhase ms2 e1 eN t st
        (base + 1) hwf1 hrun happ (by simp at hpos; omega) hget2
      have hget0 : st.ops.get? base = some (.del d k (getVal e0 d k)) := by
        have h1 := hget 0 (by simp)
        rw [hrecs] at h1
        simpa using h1
      rw [he1] at happ1
      obtain ⟨t0, hinv, happ0, hframe0, hanon0⟩ := undoStepDel e0 t1 d k sp0 hwf hs happ1
      rw [← hgv] at hinv
      have hundo : (⟨st.ops, base + 1⟩ : UndoStack).undo t1 =
          (⟨st.ops, base⟩, .ok (t0, true)) := by
        unfold UndoStack.undo
        rw [if_neg (Nat.succ_ne_zero base)]
        simp only [Nat.add_sub_cancel]
        rw [hget0]; simp only [hinv]
      refine ⟨t0, ?_, happ0, hframe0.trans hframe1, hanon0.trans hanon1⟩
      show undoSteps st t (ms2.length + 1) = _
      rw [undoSteps_succ_right, hsteps]
      show (match (⟨st.ops, base + 1⟩ : UndoStack).undo t1 with
        | (s2, Except.ok p) => (s2, Except.ok p.1)
        | (s2, Except.error m) => (s2, Except.error m)) = _
      rw [hundo]

theorem redoPhase : ∀ (ms : List Mut) (e0 eN t0 : Env) (st : UndoStack) (base : Nat),
    EnvWF e0 →
    runMutsE e0 ms = .ok eN →
    EnvApprox t0 e0 →
    (∀ d, envGetDb eN.named d ≠ none → envGetDb t0.named d ≠ none) →
    st.pos = base →
    (∀ i, i < ms.length → st.ops.get? (base + i) = (recsOf e0 ms).get? i) →
    ∃ tN, redoSteps st t0 ms.length = (⟨st.ops, base + ms.length⟩, .ok tN) ∧
      EnvApprox tN eN ∧ tN.named.map Prod.fst = t0.named.map Prod.fst ∧ tN.anon = t0.anon
  | [], e0, eN, t0, st, base, hwf, hrun, happ, hpres, hpos, hget => by
    have he : e0 = eN := Except.ok.inj hrun
    refine ⟨t0, ?_, by rw [← he]; exact happ, rfl, rfl⟩
    show (st, (Except.ok t0 : Except String Env)) = _
    rcases st with ⟨ops, pos⟩
    simp only [List.length_nil, Nat.add_zero]
    rw [show pos = base from hpos]
  | .put d k v :: ms2, e0, eN, t0, st, base, hwf, hrun, happ, hpres, hpos, hget => by
    have hrun2 : runMutsE (kv.put e0 d k v) ms2 = .ok eN := by rwa [runMutsE] at hrun
    have hwf1 : EnvWF (kv.put e0 d k v) := EnvWF_put _ _ _ _ hwf
    have hrecs : recsOf e0 (.put d k v :: ms2) =
        .put d k (getVal e0 d k) v :: recsOf (kv.put e0 d k v) ms2 := by rw [recsOf]
    have hget0 : st.ops.get? base = some (.put d k (getVal e0 d k) v) := by
      have h1 := hget 0 (by simp)
      rw [hrecs] at h1
      simpa using h1
    have hlt : base < st.ops.length := by
      by_contra hc
      rw [List.get?_eq_none.mpr (Nat.le_of_not_lt hc)] at hget0
      cases hget0
    have hpresd : envGetDb t0.named d ≠ none := by
      apply hpres
      apply runMutsE_pres ms2 (kv.put e0 d k v) eN hrun2
      rw [kvput_lookup_self]
      simp
    obtain ⟨hfwd, happ1, hframe1, hanon1⟩ :=
      redoStepPut e0 t0 d k (getVal e0 d k) v happ hpresd
    have hget2 : ∀ i, i < ms2.length →
        (⟨st.ops, base + 1⟩ : UndoStack).ops.get? (base + 1 + i) =
          (recsOf (kv.put e0 d k v) ms2).get? i := by
      intro i hi
      have h1 := hget (i + 1) (by simp; omega)
      rw [hrecs] at h1
      show st.ops.get? (base + 1 + i) = _
      rw [show base + 1 + i = base + (i + 1) from by omega]
      exact h1
    have hpres2 : ∀ d2, envGetDb eN.named d2 ≠ none →
        envGetDb (kv.put t0 d k v).named d2 ≠ none := fun d2 hd2 =>
      kvput_pres t0 d k v d2 (hpres d2 hd2)
    obtain ⟨tN, hsteps, happN, hframeN, hanonN⟩ :=
      redoPhase ms2 (kv.put e0 d k v) eN (kv.put t0 d k v) ⟨st.ops, base + 1⟩
        (base + 1) hwf1 hrun2 happ1 hpres2 rfl hget2
    have hredo : st.redo t0 = (⟨st.ops, base + 1⟩, .ok (kv.put t0 d k v, true)) := by
      unfold UndoStack.redo
      simp only [hpos]
      rw [if_neg (Nat.ne_of_lt hlt), hget0]
      simp only [hfwd]
    refine ⟨tN, ?_, happN, hframeN.trans hframe1, hanonN.trans hanon1⟩
    show (match st.redo t0 with
      | (s1, Except.ok p) => redoSteps s1 p.1 ms2.length
      | (s1, Except.error m) => (s1, Except.error m)) = _
    rw [hredo]
    show redoSteps ⟨st.ops, base + 1⟩ (kv.put t0 d k v) ms2.length = _
    rw [hsteps]
    rw [show base + 1 + ms2.length = base + (ms2.length + 1) from by omega]; rfl
  | .del d k :: ms2, e0, eN, t0, st, base, hwf, hrun, happ, hpres, hpos, hget => by
    rw [runMutsE] at hrun
    cases hdel : kv.delete e0 d k with
    | error m => rw [hdel] at hrun; cases hrun
    | ok e1 =>
      rw [hdel] at hrun
      obtain ⟨sp0, hs, he1⟩ := kv_delete_ok_elim e0 d k e1 hdel
      have hwf1 : EnvWF e1 := EnvWF_del e0 d k e1 hwf hdel
      have hrecs : recsOf e0 (.del d k :: ms2) =
          .del d k (getVal e0 d k) :: recsOf e1 ms2 := by rw [recsOf, hdel]
      have hget0 : st.ops.get? base = some (.del d k (getVal e0 d k)) := by
        have h1 := hget 0 (by simp)
        rw [hrecs] at h1
        simpa using h1
      have hlt : base < st.ops.length := by
        by_contra hc
        rw [List.get?_eq_none.mpr (Nat.le_of_not_lt hc)] at hget0
        cases hget0
      obtain ⟨hfwd, happ1, hframe1, hanon1⟩ :=
        redoStepDel e0 t0 d k (getVal e0 d k) sp0 happ hs
      have hdelT : kv.delete t0 d k =
          .ok { t0 with named := envSetDb t0.named d (spaceDel sp0 k) } := hfwd
      have happ1b : EnvApprox
          { t0 with named := envSetDb t0.named d (spaceDel sp0 k) } e1 := by
        rw [he1]
        exact happ1
      have hpres2 : ∀ d2, envGetDb eN.named d2 ≠ none →
          envGetDb ({ t0 with
            named := envSetDb t0.named d (spaceDel sp0 k) } : Env).named d2 ≠ none :=
        fun d2 hd2 => kvdel_pres t0 d k _ hdelT d2 (hpres d2 hd2)
      have hget2 : ∀ i, i < ms2.length →
          (⟨st.ops, base + 1⟩ : UndoStack).ops.get? (base + 1 + i) =
            (recsOf e1 ms2).get? i := by
        intro i hi
        have h1 := hget (i + 1) (by simp; omega)
        rw [hrecs] at h1
        show st.ops.get? (base + 1 + i) = _
        rw [show base + 1 + i = base + (i + 1) from by omega]
        exact h1
      obtain ⟨tN, hsteps, happN, hframeN, hanonN⟩ :=
        redoPhase ms2 e1 eN { t0 with named := envSetDb t0.named d (spaceDel sp0 k) }
          ⟨st.ops, base + 1⟩ (base + 1) hwf1 hrun happ1b hpres2 rfl hget2
      have hredo : st.redo t0 = (⟨st.ops, base + 1⟩,
          .ok ({ t0 with named := envSetDb t0.named d (spaceDel sp0 k) }, true)) := by
        unfold UndoStack.redo
        simp only [hpos]
        rw [if_neg (Nat.ne_of_lt hlt), hget0]
        simp only [hfwd]
      refine ⟨tN, ?_, happN, hframeN.trans hframe1, hanonN.trans hanon1⟩
      show (match st.redo t0 with
        | (s1, Except.ok p) => redoSteps s1 p.1 ms2.length
        | (s1, Except.error m) => (s1, Except.error m)) = _
      rw [hredo]
      show redoSteps ⟨st.ops, base + 1⟩
        { t0 with named := envSetDb t0.named d (spaceDel sp0 k) } ms2.length = _
      rw [hsteps]
      rw [show base + 1 + ms2.length = base + (ms2.length + 1) from by omega]; rfl

/-- Undoing a whole recorded run and redoing it restores the store exactly. -/
theorem undoAllRedoAll_no_op (e0 : Env) (ms : List Mut) (s : UndoStack) (eN : Env)
    (sN : UndoStack) (hwf : EnvWF e0) (hpos : s.pos = s.ops.length)
    (hrun : runMuts e0 s ms = .ok (eN, sN)) :
    undoAllRedoAll sN eN ms.length = (sN, .ok eN) := by
  obtain ⟨hrunE, hops, hposN⟩ := runMuts_spec ms e0 s eN sN hpos hrun
  have hreclen : (recsOf e0 ms).length = ms.length := recsOf_length ms e0 eN hrunE
  have hlen : sN.ops.length = s.ops.length + ms.length := by
    rw [hops, List.length_append, hreclen]
  have hget : ∀ i, i < ms.length →
      sN.ops.get? (s.ops.length + i) = (recsOf e0 ms).get? i := by
    intro i hi
    rw [hops, List.get?_append_right (by omega)]
    congr 1
    omega
  obtain ⟨t0, hu, happ0, hframe0, hanon0⟩ :=
    undoPhase ms e0 eN eN sN s.ops.length hwf hrunE (approx_refl eN) (by omega) hget
  have hwfN : EnvWF eN := runMutsE_wf ms e0 eN hwf hrunE
  have hpres : ∀ d, envGetDb eN.named d ≠ none → envGetDb t0.named d ≠ none := by
    intro d hd
    apply envGetDb_ne_none_of_mem
    rw [hframe0]
    by_contra hmem
    exact hd ((envGetDb_none_iff _ _).mpr hmem)
  obtain ⟨tN, hr, happN, hframeN, hanonN⟩ :=
    redoPhase ms e0 eN t0 ⟨sN.ops, s.ops.length⟩ s.ops.length hwf hrunE happ0 hpres
      rfl hget
  have htN : tN = eN :=
    approx_ext tN eN happN (by rw [hframeN, hframe0]) hwfN.2.2
  unfold undoAllRedoAll
  rw [hu]
  show redoSteps ⟨sN.ops, s.ops.length⟩ t0 ms.length = _
  rw [hr, htN, show s.ops.length + ms.length = sN.pos from by omega]

/-- `push` first normalises the cursor to the end of the (possibly truncated)
list, so any push equals a push onto a cursor-at-end stack. -/
theorem push_norm (s : UndoStack) (op : Op) :
    ∃ s2 : UndoStack, s2.pos = s2.ops.length ∧ s.push op = s2.push op := by
  refine ⟨⟨if s.pos < s.ops.length then s.ops.take s.pos else s.ops,
    (if s.pos < s.ops.length then s.ops.take s.pos else s.ops).length⟩, rfl, ?_⟩
  unfold UndoStack.push
  simp

/-- **C4**: a single mutation performed through the mutator (`commands::put`
or `commands::delete`, which record `prev` as the value read immediately
before the write in the same transaction) is reverted and replayed exactly:
one `undo` followed by one `redo` leaves the store in the state it had before
the undo; and for any sequence of such mutations recorded on a cursor-at-end
log, applying all undos in order and then all redos is a no-op on the
store. -/
theorem undo_redo_round_trip :
    (∀ (e0 : Env) (s : UndoStack) (db k : String) (v : Bytes) (e1 : Env)
      (s1 : UndoStack), EnvWF e0 → commands.put e0 s db k v = .ok (e1, s1) →
      undoAllRedoAll s1 e1 1 = (s1, .ok e1)) ∧
    (∀ (e0 : Env) (s : UndoStack) (db k : String) (e1 : Env) (s1 : UndoStack),
      EnvWF e0 → commands.delete e0 s db k = .ok (e1, s1) →
      undoAllRedoAll s1 e1 1 = (s1, .ok e1)) ∧
    (∀ (e0 : Env) (s : UndoStack) (ms : List Mut) (eN : Env) (sN : UndoStack),
      EnvWF e0 → s.pos = s.ops.length → runMuts e0 s ms = .ok (eN, sN) →
      undoAllRedoAll sN eN ms.length = (sN, .ok eN)) := by
  refine ⟨?_, ?_, ?_⟩
  · intro e0 s db k v e1 s1 hwf hput
    rw [commands_put_eq] at hput
    have h2 := Except.ok.inj hput
    have he1 : kv.put e0 db k v = e1 := congrArg Prod.fst h2
    have hs1 : s.push (.put db k (getVal e0 db k) v) = s1 := congrArg Prod.snd h2
    obtain ⟨s2, hpos2, hpp⟩ := push_norm s (.put db k (getVal e0 db k) v)
    have hrm : runMuts e0 s2 [Mut.put db k v] =
        .ok (kv.put e0 db k v, s2.push (.put db k (getVal e0 db k) v)) := by
      rw [runMuts, show runMut e0 s2 (.put db k v) = commands.put e0 s2 db k v from rfl,
        commands_put_eq, except_bind_ok]
      rfl
    have h3 := undoAllRedoAll_no_op e0 [Mut.put db k v] s2 (kv.put e0 db k v)
      (s2.push (.put db k (getVal e0 db k) v)) hwf hpos2 hrm
    rw [← hpp, hs1, he1] at h3
    exact h3
  · intro e0 s db k e1 s1 hwf hdel
    cases hs : envGetDb e0.named db with
    | none => rw [commands_delete_error_of_none e0 s db k hs] at hdel; cases hdel
    | some sp0 =>
      rw [commands_delete_eq_of_some e0 s db k sp0 hs] at hdel
      have h2 := Except.ok.inj hdel
      have he1 : ({ e0 with named := envSetDb e0.named db (spaceDel sp0 k) } : Env) = e1 :=
        congrArg Prod.fst h2
      have hs1 : s.push (.del db k (getVal e0 db k)) = s1 := congrArg Prod.snd h2
      obtain ⟨s2, hpos2, hpp⟩ := push_norm s (.del db k (getVal e0 db k))
      have hrm : runMuts e0 s2 [Mut.del db k] =
          .ok ({ e0 with named := envSetDb e0.named db (spaceDel sp0 k) },
            s2.push (.del db k (getVal e0 db k))) := by
        rw [runMuts, show runMut e0 s2 (.del db k) = commands.delete e0 s2 db k from rfl,
          commands_delete_eq_of_some e0 s2 db k sp0 hs, except_bind_ok]
        rfl
      have h3 := undoAllRedoAll_no_op e0 [Mut.del db k] s2
        { e0 with named := envSetDb e0.named db (spaceDel sp0 k) }
        (s2.push (.del db k (getVal e0 db k))) hwf hpos2 hrm
      rw [← hpp, hs1, he1] at h3
      exact h3
  · intro e0 s ms eN sN hwf hpos hrun
    exact undoAllRedoAll_no_op e0 ms s eN sN hwf hpos hrun

theorem undo_redo_round_trip_example :
    undoAllRedoAll ⟨[.put "d" "k" none [1]], 1⟩
        ⟨[], [("d", [("k", [1])])]⟩ 1 =
      (⟨[.put "d" "k" none [1]], 1⟩, .ok ⟨[], [("d", [("k", [1])])]⟩) ∧
    undoAllRedoAll ⟨[.del "d" "k" (some [1])], 1⟩ ⟨[], [("d", [])]⟩ 1 =
      (⟨[.del "d" "k" (some [1])], 1⟩, .ok ⟨[], [("d", [])]⟩) ∧
    undoAllRedoAll ⟨[.put "d" "k" none [1], .del "d" "k" (some [1])], 2⟩
        ⟨[], [("d", [])]⟩ 2 =
      (⟨[.put "d" "k" none [1], .del "d" "k" (some [1])], 2⟩,
        .ok ⟨[], [("d", [])]⟩) :=
  ⟨undo_redo_round_trip.1 ⟨[], [("d", [])]⟩ ⟨[], 0⟩ "d" "k" [1]
      ⟨[], [("d", [("k", [1])])]⟩ ⟨[.put "d" "k" none [1]], 1⟩ (by decide) rfl,
   undo_redo_round_trip.2.1 ⟨[], [("d", [("k", [1])])]⟩ ⟨[], 0⟩ "d" "k"
      ⟨[], [("d", [])]⟩ ⟨[.del "d" "k" (some [1])], 1⟩ (by decide) rfl,
   undo_redo_round_trip.2.2 ⟨[], [("d", [])]⟩ ⟨[], 0⟩
      [.put "d" "k" [1], .del "d" "k"] ⟨[], [("d", [])]⟩
      ⟨[.put "d" "k" none [1], .del "d" "k" (some [1])], 2⟩ (by decide) rfl rfl⟩

end LmdbTui
